import Mathlib

/-!
Verification development for the Nano-LLM-Cache semantic cache.

The development shallowly embeds the core of the library:

* `similarity.ts`  — `calculateSimilarity` (cosine similarity with clamping);
* `storage.ts`     — `CacheStorage` (namespaced key-value storage over the
  external `idb-keyval` store: `get`/`set`/`del`/`keys`);
* `cache.ts`       — `NanoCache` (`query`, `save`, `clear`, `getStats`).

JavaScript numbers are modelled as real numbers (`ℝ`), timestamps and
durations as integers (`ℤ`).  Asynchronous, fallible collaborator calls are
modelled by a state-and-error monad `KVM σ α = σ → Except JsError α × σ`
over an abstract backend state `σ`; the external `idb-keyval` store is
additionally instantiated concretely as an association list with stable
iteration order (`Store`), whose primitive operations never fail — the
abstract backend `KVBackend` keeps storage failures representable.
-/

namespace NanoLLMCache

/-! ## JavaScript integer helpers (for `hashPrompt`) -/

/-- JavaScript `ToInt32`: wrap an integer into `[-2^31, 2^31)`. -/
def toInt32 (n : ℤ) : ℤ := (n + 2147483648) % 4294967296 - 2147483648

/-- One step of the hash loop of `hashPrompt` (`cache.ts` / `storage.ts`):
`hash = ((hash << 5) - hash) + char; hash = hash & hash`.  On an int32
accumulator `h`, `h << 5` is `toInt32 (32 * h)`, the subtraction and the
addition are exact, and `hash & hash` coerces the result back to int32. -/
def hashStep (h c : ℤ) : ℤ := toInt32 (toInt32 (32 * h) - h + c)

/-- Digit character for base-36 output, as produced by JavaScript
`Number.prototype.toString(36)`: `0`-`9` then lowercase `a`-`z`. -/
def digit36 (d : Nat) : Char := if d < 10 then Char.ofNat (48 + d) else Char.ofNat (87 + d)

/-- Base-36 digit expansion (most significant digit first).  The first
argument is fuel; structural recursion on it keeps the definition
kernel-reducible, and fuel `n` is always enough for the number `n`. -/
def toBase36Aux : Nat → Nat → List Char → List Char
  | 0, _, acc => acc
  | fuel + 1, n, acc =>
    if n = 0 then acc else toBase36Aux fuel (n / 36) (digit36 (n % 36) :: acc)

/-- JavaScript `n.toString(36)` for a natural number. -/
def natToBase36 (n : Nat) : String :=
  if n = 0 then "0" else String.mk (toBase36Aux (n + 1) n [])

/-- `hashPrompt` from `cache.ts` (the identical private copy lives in
`storage.ts`): fold the int32 hash step over the UTF-16 code units of the
prompt, then `Math.abs(hash).toString(36)`.  Characters are modelled by
their unicode scalar value, which coincides with the UTF-16 code unit for
all characters of the basic multilingual plane. -/
def hashPrompt (prompt : String) : String :=
  natToBase36 (prompt.toList.foldl (fun h c => hashStep h (Char.toNat c)) 0).natAbs

/-- JavaScript `key.startsWith(pre)` (used by `storage.ts` to scope keys to
the configured namespace). -/
def strStartsWith (s pre : String) : Bool := pre.toList.isPrefixOf s.toList

/-! ## Data model (`types.ts`) -/

/-- A thrown JavaScript `Error`, identified by its message. -/
inductive JsError : Type
  | err (msg : String)
deriving DecidableEq

/-- `CacheEntry` from `types.ts`.  `metadata` is opaque to the engine; it is
modelled as an optional association list of strings. -/
structure CacheEntry : Type where
  prompt : String
  embedding : List ℝ
  response : String
  timestamp : ℤ
  metadata : Option (List (String × String))

/-- `CacheQueryResult` from `types.ts`: `hit` plus the optional fields
`response`, `similarity` and `entry`. -/
structure CacheQueryResult : Type where
  hit : Bool
  response : Option String
  similarity : Option ℝ
  entry : Option CacheEntry

/-- The fully-defaulted configuration of `NanoCache` (`Required<NanoCacheConfig>`):
threshold, maximum age in milliseconds (`0` = never expire), model name,
debug flag and storage namespace. -/
structure NanoCacheConfig : Type where
  similarityThreshold : ℝ
  maxAge : ℤ
  modelName : String
  debug : Bool
  storagePrefix : String

/-- The record returned by `CacheStorage.getStats`. -/
structure CacheStats : Type where
  totalEntries : Nat
  oldestEntry : Option ℤ
  newestEntry : Option ℤ
deriving DecidableEq

/-! ## Similarity function (`similarity.ts`) -/

/-- The running dot product of `calculateSimilarity`'s single loop. -/
def dotList : List ℝ → List ℝ → ℝ
  | a :: as, b :: bs => a * b + dotList as bs
  | _, _ => 0

/-- The running squared magnitude of `calculateSimilarity`'s single loop. -/
def sumsq : List ℝ → ℝ
  | x :: xs => x * x + sumsq xs
  | [] => 0

/-- `calculateSimilarity` from `similarity.ts`: cosine similarity of two
equal-length vectors, returning `0` for empty or zero-magnitude input and
clamping the result into `[0, 1]`; mismatched lengths throw
`Error('Vectors must have the same length')`. -/
noncomputable def calculateSimilarity (vecA vecB : List ℝ) : Except JsError ℝ :=
  if vecA.length ≠ vecB.length then
    .error (.err "Vectors must have the same length")
  else if vecA.length = 0 then
    .ok 0
  else if Real.sqrt (sumsq vecA) = 0 ∨ Real.sqrt (sumsq vecB) = 0 then
    .ok 0
  else
    .ok (max 0 (min 1 (dotList vecA vecB / (Real.sqrt (sumsq vecA) * Real.sqrt (sumsq vecB)))))

/-! ## The collaborator monad -/

/-- State-and-error monad modelling an `await`ed call against backend state
`σ`: it yields a value or a thrown error, together with the state left
behind by the call (writes performed before a failure stay committed). -/
def KVM (σ α : Type) : Type := σ → Except JsError α × σ

/-- Return. -/
def KVM.ret {σ α : Type} (a : α) : KVM σ α := fun s => (.ok a, s)

/-- Sequencing: a thrown error short-circuits. -/
def KVM.bind {σ α β : Type} (x : KVM σ α) (f : α → KVM σ β) : KVM σ β := fun s =>
  match x s with
  | (.ok a, s') => f a s'
  | (.error e, s') => (.error e, s')

/-- Lift a pure fallible computation. -/
def KVM.liftE {σ α : Type} (x : Except JsError α) : KVM σ α := fun s => (x, s)

/-- The external key-value collaborator (`idb-keyval`'s `keys`, `get`,
`set`, `del`), kept abstract so that storage failures are representable. -/
structure KVBackend (σ : Type) : Type where
  keys : KVM σ (List String)
  get : String → KVM σ (Option CacheEntry)
  set : String → CacheEntry → KVM σ Unit
  del : String → KVM σ Unit

/-! ## Storage manager (`storage.ts`) -/

/-- `CacheStorage`: its only state is the namespace string (source field
`prefix`, renamed because `prefix` is reserved in Lean). -/
structure CacheStorage : Type where
  pfx : String

/-- `getKey`: `` `${this.prefix}:${id}` ``. -/
def CacheStorage.getKey (st : CacheStorage) (id : String) : String :=
  st.pfx ++ ":" ++ id

/-- `CacheStorage.save`: `set(this.getKey(id), entry)`. -/
def CacheStorage.save {σ : Type} (B : KVBackend σ) (st : CacheStorage)
    (id : String) (entry : CacheEntry) : KVM σ Unit :=
  B.set (st.getKey id) entry

/-- `CacheStorage.get`: `get(this.getKey(id))`. -/
def CacheStorage.fetch {σ : Type} (B : KVBackend σ) (st : CacheStorage)
    (id : String) : KVM σ (Option CacheEntry) :=
  B.get (st.getKey id)

/-- The key loop of `CacheStorage.getAll`: fetch every key in order, keep
the non-null results in iteration order. -/
def CacheStorage.getAllAux {σ : Type} (B : KVBackend σ) : List String → KVM σ (List CacheEntry)
  | [] => KVM.ret []
  | k :: ks =>
    KVM.bind (B.get k) fun e? =>
    KVM.bind (CacheStorage.getAllAux B ks) fun rest =>
    KVM.ret (match e? with | some e => e :: rest | none => rest)

/-- `CacheStorage.getAll`: all entries whose key starts with the namespace
string, in the store's key-iteration order. -/
def CacheStorage.getAll {σ : Type} (B : KVBackend σ) (st : CacheStorage) :
    KVM σ (List CacheEntry) :=
  KVM.bind B.keys fun allKeys =>
  CacheStorage.getAllAux B (allKeys.filter (fun k => strStartsWith k st.pfx))

/-- `CacheStorage.delete`: `del(this.getKey(id))`. -/
def CacheStorage.delete {σ : Type} (B : KVBackend σ) (st : CacheStorage)
    (id : String) : KVM σ Unit :=
  B.del (st.getKey id)

/-- The deletion loop of `CacheStorage.clear`. -/
def CacheStorage.clearAux {σ : Type} (B : KVBackend σ) : List String → KVM σ Unit
  | [] => KVM.ret ()
  | k :: ks => KVM.bind (B.del k) fun _ => CacheStorage.clearAux B ks

/-- `CacheStorage.clear`: delete every key starting with the namespace
string. -/
def CacheStorage.clear {σ : Type} (B : KVBackend σ) (st : CacheStorage) : KVM σ Unit :=
  KVM.bind B.keys fun allKeys =>
  CacheStorage.clearAux B (allKeys.filter (fun k => strStartsWith k st.pfx))

/-- The deletion loop of `CacheStorage.removeExpired`: an entry is removed
(under the key rebuilt from the hash of its prompt) exactly when
`now - entry.timestamp > maxAge`; the second argument counts removals. -/
def CacheStorage.removeLoop {σ : Type} (B : KVBackend σ) (st : CacheStorage)
    (maxAge now : ℤ) : List CacheEntry → Nat → KVM σ Nat
  | [], n => KVM.ret n
  | e :: rest, n =>
    if now - e.timestamp > maxAge then
      KVM.bind (CacheStorage.delete B st (hashPrompt e.prompt)) fun _ =>
      CacheStorage.removeLoop B st maxAge now rest (n + 1)
    else
      CacheStorage.removeLoop B st maxAge now rest n

/-- `CacheStorage.removeExpired`: snapshot `getAll`, then delete the
expired entries, returning how many were removed. -/
def CacheStorage.removeExpired {σ : Type} (B : KVBackend σ) (st : CacheStorage)
    (maxAge now : ℤ) : KVM σ Nat :=
  KVM.bind (CacheStorage.getAll B st) fun entries =>
  CacheStorage.removeLoop B st maxAge now entries 0

/-- `CacheStorage.getStats`: count of entries under the namespace plus the
minimum and maximum timestamp (`Math.min`/`Math.max` over the spread
timestamp array), or `null` bounds for an empty set. -/
def CacheStorage.getStats {σ : Type} (B : KVBackend σ) (st : CacheStorage) :
    KVM σ CacheStats :=
  KVM.bind (CacheStorage.getAll B st) fun entries =>
  KVM.ret (match entries with
    | [] => ⟨0, none, none⟩
    | e :: es =>
      ⟨(e :: es).length,
       some (es.foldl (fun m x => min m x.timestamp) e.timestamp),
       some (es.foldl (fun m x => max m x.timestamp) e.timestamp)⟩)

/-! ## Cache engine (`cache.ts`) -/

/-- The `CacheStorage` bound by the `NanoCache` constructor:
`new CacheStorage(this.config.storagePrefix)`. -/
def storageOf (cfg : NanoCacheConfig) : CacheStorage := ⟨cfg.storagePrefix⟩

/-- The scan loop of `NanoCache.query` (lines 57–67): running best match
(initially `null`) and best similarity (initially `0`), updated on a
strictly greater similarity; an error from `calculateSimilarity` aborts
the loop. -/
noncomputable def scanLoop (queryEmbedding : List ℝ) :
    List CacheEntry → Option CacheEntry × ℝ → Except JsError (Option CacheEntry × ℝ)
  | [], acc => .ok acc
  | entry :: rest, (bestMatch, bestSimilarity) =>
    match calculateSimilarity queryEmbedding entry.embedding with
    | .error e => .error e
    | .ok similarity =>
      scanLoop queryEmbedding rest
        (if similarity > bestSimilarity then (some entry, similarity)
         else (bestMatch, bestSimilarity))

/-- The body of `NanoCache.query` (the `try` block): optional expiration
sweep, query embedding, fetch-all, scan, threshold decision. -/
noncomputable def NanoCache.queryBody {σ : Type} (cfg : NanoCacheConfig) (B : KVBackend σ)
    (emb : String → Except JsError (List ℝ)) (now : ℤ) (prompt : String) :
    KVM σ CacheQueryResult :=
  KVM.bind
    (if cfg.maxAge > 0
     then KVM.bind (CacheStorage.removeExpired B (storageOf cfg) cfg.maxAge now)
            (fun _ => KVM.ret ())
     else KVM.ret ()) fun _ =>
  KVM.bind (KVM.liftE (emb prompt)) fun queryEmbedding =>
  KVM.bind (CacheStorage.getAll B (storageOf cfg)) fun entries =>
  if entries.length = 0 then
    KVM.ret ⟨false, none, none, none⟩
  else
    KVM.bind (KVM.liftE (scanLoop queryEmbedding entries (none, 0))) fun best =>
    KVM.ret (match best with
      | (some bestMatch, bestSimilarity) =>
        if bestSimilarity ≥ cfg.similarityThreshold then
          ⟨true, some bestMatch.response, some bestSimilarity, some bestMatch⟩
        else
          ⟨false, none, some bestSimilarity, none⟩
      | (none, bestSimilarity) => ⟨false, none, some bestSimilarity, none⟩)

/-- `NanoCache.query`: the body wrapped in the catch-all `try`/`catch`
that converts any thrown error into `{ hit: false }`. -/
noncomputable def NanoCache.query {σ : Type} (cfg : NanoCacheConfig) (B : KVBackend σ)
    (emb : String → Except JsError (List ℝ)) (now : ℤ) (prompt : String) :
    σ → CacheQueryResult × σ := fun s =>
  match NanoCache.queryBody cfg B emb now prompt s with
  | (.ok r, s') => (r, s')
  | (.error _, s') => (⟨false, none, none, none⟩, s')

/-- `NanoCache.save`: embed the prompt, build the entry with the current
timestamp, store it under the hash of the prompt.  The source catches and
rethrows errors, so failures propagate unchanged. -/
noncomputable def NanoCache.save {σ : Type} (cfg : NanoCacheConfig) (B : KVBackend σ)
    (emb : String → Except JsError (List ℝ)) (now : ℤ) (prompt response : String)
    (metadata : Option (List (String × String))) : KVM σ Unit :=
  KVM.bind (KVM.liftE (emb prompt)) fun embedding =>
  CacheStorage.save B (storageOf cfg) (hashPrompt prompt)
    ⟨prompt, embedding, response, now, metadata⟩

/-- `NanoCache.clear`: delegates to the storage manager. -/
def NanoCache.clear {σ : Type} (cfg : NanoCacheConfig) (B : KVBackend σ) : KVM σ Unit :=
  CacheStorage.clear B (storageOf cfg)

/-- `NanoCache.getStats`: delegates to the storage manager. -/
def NanoCache.getStats {σ : Type} (cfg : NanoCacheConfig) (B : KVBackend σ) : KVM σ CacheStats :=
  CacheStorage.getStats B (storageOf cfg)

/-! ## The concrete `idb-keyval` store model -/

/-- The underlying IndexedDB store: an association list of string keys and
entries, with a stable iteration order and unique keys maintained by
`set`. -/
abbrev Store : Type := List (String × CacheEntry)

/-- The concrete store backend: `keys` lists the keys in iteration order,
`get` returns the first binding of the key, `set` overwrites in place or
appends, `del` drops every binding of the key.  None of these primitives
fail. -/
def idbBackend : KVBackend Store where
  keys := fun s => (.ok (s.map Prod.fst), s)
  get := fun k s => (.ok ((s.find? (fun kv => kv.1 = k)).map Prod.snd), s)
  set := fun k v s =>
    (.ok (), if s.any (fun kv => kv.1 = k)
             then s.map (fun kv => if kv.1 = k then (k, v) else kv)
             else s ++ [(k, v)])
  del := fun k s => (.ok (), s.filter (fun kv => ¬ kv.1 = k))

/-! ## Lemmas about the similarity function -/

lemma sumsq_nonneg (v : List ℝ) : 0 ≤ sumsq v := by
  induction v with
  | nil => simp [sumsq]
  | cons x xs ih =>
    have hx : 0 ≤ x * x := mul_self_nonneg x
    simp only [sumsq]
    linarith

lemma dotList_self (v : List ℝ) : dotList v v = sumsq v := by
  induction v with
  | nil => simp [dotList, sumsq]
  | cons x xs ih => simp [dotList, sumsq, ih]

lemma calcSim_ok_bounds {a b : List ℝ} {s : ℝ}
    (h : calculateSimilarity a b = .ok s) : 0 ≤ s ∧ s ≤ 1 := by
  unfold calculateSimilarity at h
  split at h
  · cases h
  · split at h
    · cases h
      exact ⟨le_refl 0, zero_le_one⟩
    · split at h
      · cases h
        exact ⟨le_refl 0, zero_le_one⟩
      · cases h
        refine ⟨le_max_left 0 _, max_le zero_le_one (min_le_left 1 _)⟩

lemma calcSim_ok_of_len {a b : List ℝ} (h : a.length = b.length) :
    ∃ s, calculateSimilarity a b = .ok s := by
  unfold calculateSimilarity
  rw [if_neg (by simp [h])]
  split
  · exact ⟨0, rfl⟩
  · split
    · exact ⟨0, rfl⟩
    · exact ⟨_, rfl⟩

lemma calcSim_self {v : List ℝ} (hv : sumsq v ≠ 0) :
    calculateSimilarity v v = .ok 1 := by
  have hpos : 0 < sumsq v := lt_of_le_of_ne (sumsq_nonneg v) (Ne.symm hv)
  have hlen : v.length ≠ 0 := by
    intro h
    rw [List.length_eq_zero] at h
    subst h
    simp [sumsq] at hv
  have hsqrt : Real.sqrt (sumsq v) ≠ 0 := by
    rw [Ne, Real.sqrt_eq_zero']
    push_neg
    exact hpos
  unfold calculateSimilarity
  rw [if_neg (by simp), if_neg hlen, if_neg (by push_neg; exact ⟨hsqrt, hsqrt⟩)]
  rw [dotList_self, Real.mul_self_sqrt (sumsq_nonneg v), div_self (ne_of_gt hpos)]
  norm_num

/-! ## Lemmas about the scan loop -/

/-- The similarity a successful scan observes for an entry (default `0` is
never used on the success path). -/
noncomputable def simVal (qe : List ℝ) (e : CacheEntry) : ℝ :=
  ((calculateSimilarity qe e.embedding).toOption).getD 0

/-- Pure counterpart of `scanLoop`, for a total similarity function. -/
noncomputable def scanSpec (g : CacheEntry → ℝ) :
    List CacheEntry → Option CacheEntry × ℝ → Option CacheEntry × ℝ
  | [], acc => acc
  | e :: rest, (b, s) =>
    scanSpec g rest (if g e > s then (some e, g e) else (b, s))

/-- The running maximum the scan loop maintains. -/
noncomputable def foldBest (g : CacheEntry → ℝ) (init : ℝ) (l : List CacheEntry) : ℝ :=
  l.foldl (fun s e => max s (g e)) init

lemma foldBest_nil (g : CacheEntry → ℝ) (init : ℝ) : foldBest g init [] = init := rfl

lemma foldBest_cons (g : CacheEntry → ℝ) (init : ℝ) (e : CacheEntry) (l : List CacheEntry) :
    foldBest g init (e :: l) = foldBest g (max init (g e)) l := rfl

lemma le_foldBest (g : CacheEntry → ℝ) : ∀ (l : List CacheEntry) (init : ℝ),
    init ≤ foldBest g init l := by
  intro l
  induction l with
  | nil => intro init; exact le_refl init
  | cons e rest ih =>
    intro init
    rw [foldBest_cons]
    exact le_trans (le_max_left _ _) (ih (max init (g e)))

lemma foldBest_ge (g : CacheEntry → ℝ) : ∀ (l : List CacheEntry) (init : ℝ) (e : CacheEntry),
    e ∈ l → g e ≤ foldBest g init l := by
  intro l
  induction l with
  | nil => intro init e he; cases he
  | cons x rest ih =>
    intro init e he
    rw [foldBest_cons]
    rcases List.mem_cons.mp he with h | h
    · subst h
      exact le_trans (le_max_right _ _) (le_foldBest g rest _)
    · exact ih _ e h

lemma foldBest_le (g : CacheEntry → ℝ) : ∀ (l : List CacheEntry) (init c : ℝ),
    init ≤ c → (∀ e ∈ l, g e ≤ c) → foldBest g init l ≤ c := by
  intro l
  induction l with
  | nil => intro init c h0 _; exact h0
  | cons x rest ih =>
    intro init c h0 h
    rw [foldBest_cons]
    exact ih _ c (max_le h0 (h x (List.mem_cons_self x rest)))
      (fun e he => h e (List.mem_cons_of_mem x he))

lemma foldBest_attained (g : CacheEntry → ℝ) : ∀ (l : List CacheEntry) (init : ℝ),
    init < foldBest g init l → ∃ e ∈ l, g e = foldBest g init l := by
  intro l
  induction l with
  | nil => intro init h; exact absurd h (lt_irrefl init)
  | cons x rest ih =>
    intro init h
    rw [foldBest_cons] at h ⊢
    by_cases hlt : max init (g x) < foldBest g (max init (g x)) rest
    · obtain ⟨e, he, hge⟩ := ih _ hlt
      exact ⟨e, List.mem_cons_of_mem x he, hge⟩
    · have heq : foldBest g (max init (g x)) rest = max init (g x) :=
        le_antisymm (not_lt.mp hlt) (le_foldBest g rest _)
      refine ⟨x, List.mem_cons_self x rest, ?_⟩
      rw [heq]
      rcases max_cases init (g x) with ⟨hm, _⟩ | ⟨hm, _⟩
      · rw [heq, hm] at h
        exact absurd h (lt_irrefl init)
      · rw [hm]

lemma scanLoop_eq_spec {qe : List ℝ} : ∀ {l : List CacheEntry},
    (∀ e ∈ l, ∃ v, calculateSimilarity qe e.embedding = .ok v) →
    ∀ acc : Option CacheEntry × ℝ, scanLoop qe l acc = .ok (scanSpec (simVal qe) l acc) := by
  intro l
  induction l with
  | nil => intro _ acc; rfl
  | cons e rest ih =>
    intro h acc
    obtain ⟨v, hv⟩ := h e (List.mem_cons_self e rest)
    have hsv : simVal qe e = v := by simp [simVal, hv, Except.toOption]
    obtain ⟨b, s⟩ := acc
    simp only [scanLoop, scanSpec, hv, hsv]
    exact ih (fun x hx => h x (List.mem_cons_of_mem e hx)) _

lemma scanSpec_no_update (g : CacheEntry → ℝ) : ∀ (l : List CacheEntry)
    (b : Option CacheEntry) (s : ℝ), (∀ e ∈ l, g e ≤ s) → scanSpec g l (b, s) = (b, s) := by
  intro l
  induction l with
  | nil => intro b s _; rfl
  | cons x rest ih =>
    intro b s h
    simp only [scanSpec]
    rw [if_neg (not_lt.mpr (h x (List.mem_cons_self x rest)))]
    exact ih b s (fun e he => h e (List.mem_cons_of_mem x he))

lemma scanSpec_snd (g : CacheEntry → ℝ) : ∀ (l : List CacheEntry) (b : Option CacheEntry)
    (s : ℝ), (scanSpec g l (b, s)).2 = foldBest g s l := by
  intro l
  induction l with
  | nil => intro b s; rfl
  | cons x rest ih =>
    intro b s
    simp only [scanSpec, foldBest_cons]
    by_cases hgt : g x > s
    · rw [if_pos hgt, ih, max_eq_right (le_of_lt hgt)]
    · rw [if_neg hgt, ih, max_eq_left (not_lt.mp hgt)]

lemma scanSpec_fst_find (g : CacheEntry → ℝ) : ∀ (l : List CacheEntry) (s : ℝ)
    (b : Option CacheEntry), s < foldBest g s l →
    (scanSpec g l (b, s)).1 = l.find? (fun e => decide (g e = foldBest g s l)) := by
  intro l
  induction l with
  | nil => intro s b h; exact absurd h (lt_irrefl s)
  | cons x rest ih =>
    intro s b h
    rw [foldBest_cons] at h ⊢
    simp only [scanSpec]
    by_cases hgt : g x > s
    · rw [if_pos hgt]
      rw [max_eq_right (le_of_lt hgt)] at h ⊢
      by_cases hx : g x = foldBest g (g x) rest
      · have hfind : List.find? (fun e => decide (g e = foldBest g (g x) rest)) (x :: rest) =
            some x := List.find?_cons_of_pos rest (by exact decide_eq_true hx)
        rw [hfind]
        rw [scanSpec_no_update g rest (some x) (g x)
          (fun e he => hx ▸ foldBest_ge g rest (g x) e he)]
      · have hfind : List.find? (fun e => decide (g e = foldBest g (g x) rest)) (x :: rest) =
            List.find? (fun e => decide (g e = foldBest g (g x) rest)) rest :=
          List.find?_cons_of_neg rest (by simpa using hx)
        rw [hfind]
        have hlt : g x < foldBest g (g x) rest :=
          lt_of_le_of_ne (le_foldBest g rest (g x)) hx
        exact ih _ (some x) hlt
    · rw [if_neg hgt]
      rw [max_eq_left (not_lt.mp hgt)] at h ⊢
      have hx : ¬ g x = foldBest g s rest := by
        intro hx
        rw [← hx] at h
        exact absurd (lt_of_le_of_lt (not_lt.mp hgt) h) (lt_irrefl (g x))
      have hfind : List.find? (fun e => decide (g e = foldBest g s rest)) (x :: rest) =
          List.find? (fun e => decide (g e = foldBest g s rest)) rest :=
        List.find?_cons_of_neg rest (by simpa using hx)
      rw [hfind]
      exact ih s b h

lemma scanSpec_fst_none (g : CacheEntry → ℝ) {l : List CacheEntry}
    (h : ∀ e ∈ l, g e ≤ 0) : scanSpec g l (none, 0) = (none, 0) :=
  scanSpec_no_update g l none 0 h

/-- Decompose a successful `find?` into the first match and the
non-matching elements scanned before it. -/
lemma find?_split {α : Type} {p : α → Bool} : ∀ {l : List α} {a : α},
    l.find? p = some a → ∃ l₁ l₂, l = l₁ ++ a :: l₂ ∧ ∀ x ∈ l₁, p x = false := by
  intro l
  induction l with
  | nil => intro a h; cases h
  | cons x rest ih =>
    intro a h
    by_cases hx : p x
    · rw [List.find?_cons_of_pos _ hx] at h
      cases h
      exact ⟨[], rest, rfl, fun x hx => absurd hx (List.not_mem_nil x)⟩
    · rw [List.find?_cons_of_neg _ hx] at h
      obtain ⟨l₁, l₂, heq, hall⟩ := ih h
      refine ⟨x :: l₁, l₂, by rw [heq, List.cons_append], ?_⟩
      intro y hy
      rcases List.mem_cons.mp hy with h' | h'
      · subst h'
        exact Bool.eq_false_iff.mpr hx
      · exact hall y h'

/-! ## Lemmas about the concrete store backend -/

/-- Value computed by `getAllAux` against the concrete store. -/
def gaPure (ks : List String) (s : Store) : List CacheEntry :=
  ks.filterMap (fun k => (s.find? (fun kv => kv.1 = k)).map Prod.snd)

/-- The entries `CacheStorage.getAll` returns over the concrete store (for
a store with unique keys): the values of the bindings whose key starts
with the namespace string, in iteration order. -/
def entriesOf (p : String) (s : Store) : List CacheEntry :=
  (s.filter (fun kv => strStartsWith kv.1 p)).map Prod.snd

lemma getAllAux_idb : ∀ (ks : List String) (s : Store),
    CacheStorage.getAllAux idbBackend ks s = (.ok (gaPure ks s), s) := by
  intro ks
  induction ks with
  | nil => intro s; rfl
  | cons k rest ih =>
    intro s
    simp only [CacheStorage.getAllAux, KVM.bind, KVM.ret]
    rw [show idbBackend.get k s =
      ((Except.ok ((s.find? (fun kv => kv.1 = k)).map Prod.snd) :
        Except JsError (Option CacheEntry)), s) from rfl]
    dsimp only
    rw [ih s]
    dsimp only
    cases ho : (s.find? (fun kv => kv.1 = k)).map Prod.snd with
    | none => simp [gaPure, List.filterMap_cons, ho]
    | some e => simp [gaPure, List.filterMap_cons, ho]

lemma getAll_idb (p : String) (s : Store) :
    CacheStorage.getAll idbBackend ⟨p⟩ s =
      (.ok (gaPure ((s.map Prod.fst).filter (fun k => strStartsWith k p)) s), s) := by
  simp only [CacheStorage.getAll, KVM.bind, idbBackend]
  exact getAllAux_idb _ s

lemma gaPure_shadow (k : String) (v : CacheEntry) (t : Store) :
    ∀ ks : List String, (∀ k' ∈ ks, k' ≠ k) →
    gaPure ks ((k, v) :: t) = gaPure ks t := by
  intro ks
  induction ks with
  | nil => intro _; rfl
  | cons x rest ih =>
    intro h
    have hx : ¬ ((k, v).1 = x) := fun he => h x (List.mem_cons_self x rest) he.symm
    simp only [gaPure, List.filterMap_cons]
    rw [List.find?_cons_of_neg t (by simpa using hx)]
    have ihr := ih (fun k' hk' => h k' (List.mem_cons_of_mem x hk'))
    simp only [gaPure] at ihr
    rw [ihr]

lemma gaPure_eq_entriesOf (p : String) : ∀ (s : Store), (s.map Prod.fst).Nodup →
    gaPure ((s.map Prod.fst).filter (fun k => strStartsWith k p)) s = entriesOf p s := by
  intro s
  induction s with
  | nil => intro _; rfl
  | cons kv t ih =>
    intro hnd
    obtain ⟨k, v⟩ := kv
    rw [List.map_cons, List.nodup_cons] at hnd
    obtain ⟨hk, hndt⟩ := hnd
    have hshadow : ∀ k' ∈ (t.map Prod.fst).filter (fun k' => strStartsWith k' p), k' ≠ k := by
      intro k' hk' he
      exact hk (he ▸ (List.mem_filter.mp hk').1)
    rw [List.map_cons]
    by_cases hp : strStartsWith k p
    · rw [List.filter_cons_of_pos (by simpa using hp)]
      simp only [gaPure, List.filterMap_cons]
      rw [List.find?_cons_of_pos t (by simp)]
      have hrest := gaPure_shadow k v t ((t.map Prod.fst).filter (fun k' => strStartsWith k' p)) hshadow
      simp only [gaPure] at hrest
      rw [hrest]
      have iht := ih hndt
      simp only [gaPure] at iht
      rw [iht]
      simp only [entriesOf]
      rw [List.filter_cons_of_pos (by simpa using hp), List.map_cons]
      rfl
    · rw [List.filter_cons_of_neg (by simpa using hp)]
      have hrest := gaPure_shadow k v t ((t.map Prod.fst).filter (fun k' => strStartsWith k' p)) hshadow
      simp only [gaPure] at hrest
      simp only [gaPure]
      rw [hrest]
      have iht := ih hndt
      simp only [gaPure] at iht
      rw [iht]
      simp only [entriesOf]
      rw [List.filter_cons_of_neg (by simpa using hp)]

lemma getAll_idb_entries (p : String) (s : Store) (hnd : (s.map Prod.fst).Nodup) :
    CacheStorage.getAll idbBackend ⟨p⟩ s = (.ok (entriesOf p s), s) := by
  rw [getAll_idb, gaPure_eq_entriesOf p s hnd]

lemma KVM.bind_run_ok {σ α β : Type} {x : KVM σ α} {f : α → KVM σ β} {s s' : σ} {a : α}
    (h : x s = (.ok a, s')) : KVM.bind x f s = f a s' := by
  unfold KVM.bind
  rw [h]

lemma KVM.bind_run_error {σ α β : Type} {x : KVM σ α} {f : α → KVM σ β} {s s' : σ}
    {e : JsError} (h : x s = (.error e, s')) : KVM.bind x f s = (.error e, s') := by
  unfold KVM.bind
  rw [h]

lemma KVM.ret_run {σ α : Type} (a : α) (s : σ) : KVM.ret a s = ((.ok a : Except JsError α), s) := rfl

lemma KVM.liftE_run {σ α : Type} (x : Except JsError α) (s : σ) : KVM.liftE x s = (x, s) := rfl

lemma clearAux_idb : ∀ (ks : List String) (s : Store),
    CacheStorage.clearAux idbBackend ks s =
      (.ok (), s.filter (fun kv => decide (¬ kv.1 ∈ ks))) := by
  intro ks
  induction ks with
  | nil =>
    intro s
    show ((.ok (), s) : Except JsError Unit × Store) = _
    simp
  | cons k rest ih =>
    intro s
    have step : CacheStorage.clearAux idbBackend (k :: rest) s =
        CacheStorage.clearAux idbBackend rest (s.filter (fun kv => ¬ kv.1 = k)) := by
      simp only [CacheStorage.clearAux]
      exact KVM.bind_run_ok rfl
    rw [step, ih]
    congr 1
    rw [List.filter_filter]
    apply List.filter_congr
    intro a _
    simp only [List.mem_cons, decide_not, Bool.and_comm]
    by_cases h1 : a.1 = k <;> by_cases h2 : a.1 ∈ rest <;> simp [h1, h2]

lemma clear_idb (p : String) (s : Store) :
    CacheStorage.clear idbBackend ⟨p⟩ s =
      (.ok (), s.filter (fun kv => !(strStartsWith kv.1 p))) := by
  have step : CacheStorage.clear idbBackend ⟨p⟩ s =
      CacheStorage.clearAux idbBackend
        ((s.map Prod.fst).filter (fun k => strStartsWith k p)) s := by
    simp only [CacheStorage.clear]
    exact KVM.bind_run_ok rfl
  rw [step, clearAux_idb]
  congr 1
  apply List.filter_congr
  intro a ha
  have hmem : a.1 ∈ s.map Prod.fst := List.mem_map_of_mem Prod.fst ha
  by_cases hp : strStartsWith a.1 p
  · simp [List.mem_filter, hp, hmem]
  · simp [List.mem_filter, hp]

/-- The keys the deletion loop of `removeExpired` deletes: the rebuilt
own-namespace key of every expired snapshot entry. -/
def expiredKeys (st : CacheStorage) (maxAge now : ℤ) (L : List CacheEntry) : List String :=
  (L.filter (fun e => decide (now - e.timestamp > maxAge))).map
    (fun e => st.getKey (hashPrompt e.prompt))

lemma removeLoop_idb (st : CacheStorage) (maxAge now : ℤ) : ∀ (L : List CacheEntry)
    (n : Nat) (s : Store), ∃ c, CacheStorage.removeLoop idbBackend st maxAge now L n s =
      (.ok c, s.filter (fun kv => decide (¬ kv.1 ∈ expiredKeys st maxAge now L))) := by
  intro L
  induction L with
  | nil =>
    intro n s
    refine ⟨n, ?_⟩
    show ((.ok n, s) : Except JsError Nat × Store) = _
    simp [expiredKeys]
  | cons e L ih =>
    intro n s
    by_cases hexp : now - e.timestamp > maxAge
    · have step : CacheStorage.removeLoop idbBackend st maxAge now (e :: L) n s =
          CacheStorage.removeLoop idbBackend st maxAge now L (n + 1)
            (s.filter (fun kv => ¬ kv.1 = st.getKey (hashPrompt e.prompt))) := by
        simp only [CacheStorage.removeLoop]
        rw [if_pos hexp]
        exact KVM.bind_run_ok rfl
      obtain ⟨c, hc⟩ := ih (n + 1) (s.filter (fun kv => ¬ kv.1 = st.getKey (hashPrompt e.prompt)))
      refine ⟨c, ?_⟩
      rw [step, hc]
      congr 1
      rw [List.filter_filter]
      apply List.filter_congr
      intro a _
      have hek : expiredKeys st maxAge now (e :: L) =
          st.getKey (hashPrompt e.prompt) :: expiredKeys st maxAge now L := by
        simp only [expiredKeys]
        rw [List.filter_cons_of_pos (by simpa using hexp), List.map_cons]
      rw [hek]
      simp only [List.mem_cons, decide_not]
      by_cases h1 : a.1 = st.getKey (hashPrompt e.prompt) <;> by_cases h2 : a.1 ∈ expiredKeys st maxAge now L <;>
        simp [h1, h2]
    · have step : CacheStorage.removeLoop idbBackend st maxAge now (e :: L) n s =
          CacheStorage.removeLoop idbBackend st maxAge now L n s := by
        simp only [CacheStorage.removeLoop]
        rw [if_neg hexp]
      obtain ⟨c, hc⟩ := ih n s
      refine ⟨c, ?_⟩
      rw [step, hc]
      have hek : expiredKeys st maxAge now (e :: L) = expiredKeys st maxAge now L := by
        simp only [expiredKeys]
        rw [List.filter_cons_of_neg (by simpa using hexp)]
      rw [hek]

/-- The store left behind by `removeExpired` over the concrete backend. -/
def sweepStore (p : String) (maxAge now : ℤ) (s : Store) : Store :=
  s.filter (fun kv => decide (¬ kv.1 ∈ expiredKeys ⟨p⟩ maxAge now (entriesOf p s)))

lemma removeExpired_idb (p : String) (maxAge now : ℤ) (s : Store)
    (hnd : (s.map Prod.fst).Nodup) :
    ∃ c, CacheStorage.removeExpired idbBackend ⟨p⟩ maxAge now s =
      (.ok c, sweepStore p maxAge now s) := by
  have step : CacheStorage.removeExpired idbBackend ⟨p⟩ maxAge now s =
      CacheStorage.removeLoop idbBackend ⟨p⟩ maxAge now (entriesOf p s) 0 s := by
    simp only [CacheStorage.removeExpired]
    exact KVM.bind_run_ok (getAll_idb_entries p s hnd)
  obtain ⟨c, hc⟩ := removeLoop_idb ⟨p⟩ maxAge now (entriesOf p s) 0 s
  exact ⟨c, by rw [step, hc]; rfl⟩

lemma filter_keys_nodup (p : (String × CacheEntry) → Bool) (s : Store)
    (hnd : (s.map Prod.fst).Nodup) : (((s.filter p).map Prod.fst)).Nodup :=
  List.Nodup.sublist ((List.filter_sublist s).map Prod.fst) hnd

/-- The store `query` scans: the input store after the conditional
expiration sweep. -/
def postSweep (cfg : NanoCacheConfig) (now : ℤ) (s : Store) : Store :=
  if cfg.maxAge > 0 then sweepStore cfg.storagePrefix cfg.maxAge now s else s

lemma postSweep_nodup (cfg : NanoCacheConfig) (now : ℤ) (s : Store)
    (hnd : (s.map Prod.fst).Nodup) : ((postSweep cfg now s).map Prod.fst).Nodup := by
  unfold postSweep
  by_cases h : cfg.maxAge > 0
  · rw [if_pos h]
    exact filter_keys_nodup _ s hnd
  · rw [if_neg h]
    exact hnd

/-! ## Characterizing `query` over the concrete store -/

/-- The threshold decision of `query` (lines 69–89 of `cache.ts`). -/
noncomputable def decision (thr : ℝ) : Option CacheEntry × ℝ → CacheQueryResult
  | (some bestMatch, bestSimilarity) =>
    if bestSimilarity ≥ thr then
      ⟨true, some bestMatch.response, some bestSimilarity, some bestMatch⟩
    else
      ⟨false, none, some bestSimilarity, none⟩
  | (none, bestSimilarity) => ⟨false, none, some bestSimilarity, none⟩

/-- The value of the `try` block of `query`, as a function of the scanned
entry set. -/
noncomputable def queryPureE (cfg : NanoCacheConfig) (qe : List ℝ) (E : List CacheEntry) :
    Except JsError CacheQueryResult :=
  if E.length = 0 then .ok ⟨false, none, none, none⟩
  else match scanLoop qe E (none, 0) with
    | .ok best => .ok (decision cfg.similarityThreshold best)
    | .error e => .error e

/-- The value of `query`, as a function of the scanned entry set. -/
noncomputable def queryPure (cfg : NanoCacheConfig) (qe : List ℝ) (E : List CacheEntry) :
    CacheQueryResult :=
  match queryPureE cfg qe E with
  | .ok r => r
  | .error _ => ⟨false, none, none, none⟩

lemma queryBody_idb (cfg : NanoCacheConfig) {emb : String → Except JsError (List ℝ)}
    (now : ℤ) {prompt : String} {s : Store} {qe : List ℝ}
    (hemb : emb prompt = .ok qe) (hnd : (s.map Prod.fst).Nodup) :
    NanoCache.queryBody cfg idbBackend emb now prompt s =
      (queryPureE cfg qe (entriesOf cfg.storagePrefix (postSweep cfg now s)),
       postSweep cfg now s) := by
  have hsweep : (if cfg.maxAge > 0
      then KVM.bind (CacheStorage.removeExpired idbBackend (storageOf cfg) cfg.maxAge now)
             (fun _ => KVM.ret ())
      else KVM.ret ()) s = ((.ok () : Except JsError Unit), postSweep cfg now s) := by
    by_cases h : cfg.maxAge > 0
    · rw [if_pos h]
      obtain ⟨c, hc⟩ := removeExpired_idb cfg.storagePrefix cfg.maxAge now s hnd
      have hc' : CacheStorage.removeExpired idbBackend (storageOf cfg) cfg.maxAge now s =
          (.ok c, sweepStore cfg.storagePrefix cfg.maxAge now s) := hc
      rw [KVM.bind_run_ok hc', KVM.ret_run]
      unfold postSweep
      rw [if_pos h]
    · rw [if_neg h, KVM.ret_run]
      unfold postSweep
      rw [if_neg h]
  have hga : CacheStorage.getAll idbBackend (storageOf cfg) (postSweep cfg now s) =
      (.ok (entriesOf cfg.storagePrefix (postSweep cfg now s)), postSweep cfg now s) :=
    getAll_idb_entries cfg.storagePrefix (postSweep cfg now s) (postSweep_nodup cfg now s hnd)
  have hqe : KVM.liftE (emb prompt) (postSweep cfg now s) =
      ((.ok qe : Except JsError (List ℝ)), postSweep cfg now s) := by
    rw [KVM.liftE_run, hemb]
  unfold NanoCache.queryBody
  rw [KVM.bind_run_ok hsweep, KVM.bind_run_ok hqe, KVM.bind_run_ok hga]
  by_cases hE : (entriesOf cfg.storagePrefix (postSweep cfg now s)).length = 0
  · rw [if_pos hE, KVM.ret_run]
    unfold queryPureE
    rw [if_pos hE]
  · rw [if_neg hE]
    cases hscan : scanLoop qe (entriesOf cfg.storagePrefix (postSweep cfg now s)) (none, 0) with
    | error e =>
      have hl : KVM.liftE (Except.error e) (postSweep cfg now s) =
          ((Except.error e : Except JsError (Option CacheEntry × ℝ)), postSweep cfg now s) := rfl
      rw [KVM.bind_run_error hl]
      unfold queryPureE
      rw [if_neg hE, hscan]
    | ok best =>
      have hl : KVM.liftE (Except.ok best) (postSweep cfg now s) =
          ((Except.ok best : Except JsError (Option CacheEntry × ℝ)), postSweep cfg now s) := rfl
      rw [KVM.bind_run_ok hl, KVM.ret_run]
      unfold queryPureE
      rw [if_neg hE, hscan]
      obtain ⟨bm, bs⟩ := best
      cases bm <;> rfl

lemma query_idb (cfg : NanoCacheConfig) {emb : String → Except JsError (List ℝ)}
    (now : ℤ) {prompt : String} {s : Store} {qe : List ℝ}
    (hemb : emb prompt = .ok qe) (hnd : (s.map Prod.fst).Nodup) :
    NanoCache.query cfg idbBackend emb now prompt s =
      (queryPure cfg qe (entriesOf cfg.storagePrefix (postSweep cfg now s)),
       postSweep cfg now s) := by
  unfold NanoCache.query
  rw [queryBody_idb cfg now hemb hnd]
  unfold queryPure
  cases queryPureE cfg qe (entriesOf cfg.storagePrefix (postSweep cfg now s)) <;> rfl

/-! ## Characterizing `save` over the concrete store -/

/-- The concrete store after an `idb-keyval` `set`: overwrite in place, or
append a fresh binding. -/
def setStore (k : String) (v : CacheEntry) (s : Store) : Store :=
  if s.any (fun kv => kv.1 = k) then s.map (fun kv => if kv.1 = k then (k, v) else kv)
  else s ++ [(k, v)]

lemma save_idb (cfg : NanoCacheConfig) {emb : String → Except JsError (List ℝ)}
    (now : ℤ) {prompt response : String} {metadata : Option (List (String × String))}
    {s : Store} {qe : List ℝ} (hemb : emb prompt = .ok qe) :
    NanoCache.save cfg idbBackend emb now prompt response metadata s =
      (.ok (), setStore (CacheStorage.getKey (storageOf cfg) (hashPrompt prompt))
        ⟨prompt, qe, response, now, metadata⟩ s) := by
  unfold NanoCache.save
  have hqe : KVM.liftE (emb prompt) s = ((.ok qe : Except JsError (List ℝ)), s) := by
    rw [KVM.liftE_run, hemb]
  rw [KVM.bind_run_ok hqe]
  rfl

lemma setStore_keys (k : String) (v : CacheEntry) (s : Store) :
    (setStore k v s).map Prod.fst =
      if s.any (fun kv => kv.1 = k) then s.map Prod.fst else s.map Prod.fst ++ [k] := by
  unfold setStore
  by_cases h : s.any (fun kv => kv.1 = k)
  · rw [if_pos h, if_pos h, List.map_map]
    apply List.map_congr_left
    intro kv _
    by_cases hk : kv.1 = k
    · simp [hk]
    · simp [hk]
  · rw [if_neg h, if_neg h, List.map_append]
    rfl

lemma setStore_keys_nodup (k : String) (v : CacheEntry) (s : Store)
    (hnd : (s.map Prod.fst).Nodup) : ((setStore k v s).map Prod.fst).Nodup := by
  rw [setStore_keys]
  by_cases h : s.any (fun kv => kv.1 = k)
  · rw [if_pos h]
    exact hnd
  · rw [if_neg h]
    have hk : k ∉ s.map Prod.fst := by
      intro hmem
      obtain ⟨kv, hkv, hfst⟩ := List.mem_map.mp hmem
      exact h (List.any_eq_true.mpr ⟨kv, hkv, by simp [hfst]⟩)
    simp [List.nodup_append, hnd, hk]

lemma setStore_mem (k : String) (v : CacheEntry) (s : Store) : (k, v) ∈ setStore k v s := by
  unfold setStore
  by_cases h : s.any (fun kv => kv.1 = k)
  · rw [if_pos h]
    obtain ⟨kv, hkv, hfst⟩ := List.any_eq_true.mp h
    refine List.mem_map.mpr ⟨kv, hkv, ?_⟩
    rw [if_pos (by simpa using hfst)]
  · rw [if_neg h]
    exact List.mem_append.mpr (Or.inr (List.mem_singleton_self _))

lemma strStartsWith_getKey (p id : String) :
    strStartsWith (CacheStorage.getKey ⟨p⟩ id) p = true := by
  unfold strStartsWith CacheStorage.getKey
  rw [ List.isPrefixOf_iff_prefix]
  have h : (p ++ ":" ++ id).toList = p.toList ++ (":" ++ id).toList := by
    show (p ++ ":" ++ id).data = p.data ++ (":" ++ id).data
    rw [String.data_append (p ++ ":") id, String.data_append p ":",
      String.data_append ":" id, List.append_assoc]
  rw [h]
  exact List.prefix_append p.toList _

/-! ## Concrete fixtures used by witnesses and counterexamples -/

/-- The fully-defaulted configuration produced by `new NanoCache({})`. -/
noncomputable def cfgD : NanoCacheConfig :=
  ⟨95 / 100, 0, "Xenova/all-MiniLM-L6-v2", false, "nano-llm-cache"⟩

/-- A stored entry whose embedding has dimension 3. -/
noncomputable def entMismatch : CacheEntry := ⟨"a", [1, 0, 0], "ra", 0, none⟩

/-- An embedding provider that always fails (model-load failure). -/
def embFail : String → Except JsError (List ℝ) := fun _ => .error (.err "EmbeddingError")

/-- A deterministic embedding provider producing the 2-dimensional vector
`[1, 0]` for every prompt. -/
noncomputable def embTwo : String → Except JsError (List ℝ) := fun _ => .ok [1, 0]

/-- A backend whose `keys` enumeration fails (store failure). -/
def failingKeys : KVBackend Store :=
  { idbBackend with keys := fun s => (.error (.err "StorageError"), s) }

/-! ## Claims -/

/-- C1: for every backend, embedding provider, configuration, prompt and
initial state, whenever the body of `query` (its `try` block) throws any
error — an embedding failure, a storage failure or a scan failure — the
catch-all of `query` converts it into a Miss result with no `similarity`
(and no other field): `query` never propagates the error. -/
theorem claim1_query_fail_open {σ : Type} (cfg : NanoCacheConfig) (B : KVBackend σ)
    (emb : String → Except JsError (List ℝ)) (now : ℤ) (prompt : String) (s s' : σ)
    (e : JsError)
    (h : NanoCache.queryBody cfg B emb now prompt s = (.error e, s')) :
    NanoCache.query cfg B emb now prompt s = (⟨false, none, none, none⟩, s') := by
  unfold NanoCache.query
  rw [h]

/-- Witness for C1 at three concrete failures: a failing embedding
provider, a failing store enumeration, and a similarity error from a
dimension-mismatched stored entry.  In each case `query` resolves to a Miss
with no similarity. -/
theorem claim1_witness :
    NanoCache.query cfgD idbBackend embFail 0 "p" [] = (⟨false, none, none, none⟩, [])
    ∧ NanoCache.query cfgD failingKeys embTwo 0 "p" [] = (⟨false, none, none, none⟩, [])
    ∧ NanoCache.query cfgD idbBackend embTwo 0 "p" [("nano-llm-cache:x", entMismatch)] =
        (⟨false, none, none, none⟩, [("nano-llm-cache:x", entMismatch)]) :=
  ⟨claim1_query_fail_open cfgD idbBackend embFail 0 "p" [] [] (.err "EmbeddingError") rfl,
   claim1_query_fail_open cfgD failingKeys embTwo 0 "p" [] [] (.err "StorageError") rfl,
   claim1_query_fail_open cfgD idbBackend embTwo 0 "p" [("nano-llm-cache:x", entMismatch)]
     [("nano-llm-cache:x", entMismatch)] (.err "Vectors must have the same length") rfl⟩

/-- Counterexample to C2: a query over a store holding an entry of
embedding dimension 3, with a query embedding of dimension 2.  The
Similarity Function throws `InvalidInput` (the body of `query` ends in that
error), yet `query` resolves to `{ hit: false }` with no similarity — the
error is masked by the catch-all, not propagated to the caller. -/
theorem claim2_counterexample :
    NanoCache.queryBody cfgD idbBackend embTwo 0 "p" [("nano-llm-cache:x", entMismatch)] =
      (.error (.err "Vectors must have the same length"), [("nano-llm-cache:x", entMismatch)])
    ∧ NanoCache.query cfgD idbBackend embTwo 0 "p" [("nano-llm-cache:x", entMismatch)] =
      (⟨false, none, none, none⟩, [("nano-llm-cache:x", entMismatch)]) :=
  ⟨rfl, rfl⟩

/-- C2 as amended: an `InvalidInput` error raised by the Similarity
Function during the scan of `query` is caught at the same engine boundary
as every other error, and `query` resolves to a Miss with no similarity;
it does not propagate to the caller. -/
theorem claim2_invalid_input_masked {σ : Type} (cfg : NanoCacheConfig) (B : KVBackend σ)
    (emb : String → Except JsError (List ℝ)) (now : ℤ) (prompt : String) (s s' : σ)
    (h : NanoCache.queryBody cfg B emb now prompt s =
      (.error (.err "Vectors must have the same length"), s')) :
    NanoCache.query cfg B emb now prompt s = (⟨false, none, none, none⟩, s') := by
  unfold NanoCache.query
  rw [h]

/-- Witness for the amended C2 at the concrete mismatched-dimension
store. -/
theorem claim2_witness :
    NanoCache.query cfgD idbBackend embTwo 0 "p" [("nano-llm-cache:x", entMismatch)] =
      (⟨false, none, none, none⟩, [("nano-llm-cache:x", entMismatch)]) :=
  claim2_invalid_input_masked cfgD idbBackend embTwo 0 "p"
    [("nano-llm-cache:x", entMismatch)] [("nano-llm-cache:x", entMismatch)] rfl

/-- C8: for equal-length real vectors, `calculateSimilarity` succeeds with
a value in `[0, 1]`; it returns exactly `0` for length-0 input and exactly
`0` when either vector has Euclidean magnitude `0`. -/
theorem claim8_similarity_bounds (a b : List ℝ) (hlen : a.length = b.length) :
    (∃ s, calculateSimilarity a b = .ok s ∧ 0 ≤ s ∧ s ≤ 1)
    ∧ (a.length = 0 → calculateSimilarity a b = .ok 0)
    ∧ ((Real.sqrt (sumsq a) = 0 ∨ Real.sqrt (sumsq b) = 0) →
        calculateSimilarity a b = .ok 0) := by
  obtain ⟨s, hs⟩ := calcSim_ok_of_len hlen
  refine ⟨⟨s, hs, (calcSim_ok_bounds hs).1, (calcSim_ok_bounds hs).2⟩, ?_, ?_⟩
  · intro h0
    unfold calculateSimilarity
    rw [if_neg (by simp [hlen]), if_pos h0]
  · intro hmag
    unfold calculateSimilarity
    rw [if_neg (by simp [hlen])]
    by_cases h0 : a.length = 0
    · rw [if_pos h0]
    · rw [if_neg h0, if_pos hmag]

/-- Witness for C8 at the orthogonal pair `[1, 0]`, `[0, 1]`. -/
theorem claim8_witness :
    (∃ s, calculateSimilarity [(1 : ℝ), 0] [0, 1] = .ok s ∧ 0 ≤ s ∧ s ≤ 1)
    ∧ (([(1 : ℝ), 0] : List ℝ).length = 0 → calculateSimilarity [(1 : ℝ), 0] [0, 1] = .ok 0)
    ∧ ((Real.sqrt (sumsq [(1 : ℝ), 0]) = 0 ∨ Real.sqrt (sumsq [(0 : ℝ), 1]) = 0) →
        calculateSimilarity [(1 : ℝ), 0] [0, 1] = .ok 0) :=
  claim8_similarity_bounds [(1 : ℝ), 0] [(0 : ℝ), 1] rfl

/-- C3 as amended: over the entry set `query` scans (the store contents
under the namespace after the conditional sweep), with all similarities
defined and `M` the best similarity (the `0`-initialized running maximum):
an empty set yields a Miss with no similarity; when the set is non-empty,
if `M` is positive and reaches the threshold, `query` hits with the
response, score and entry of a best-scoring entry; if `M` is below the
threshold, or `M = 0` (so the running best was never exceeded, even for a
threshold of `0`), `query` misses but still reports `M`. -/
theorem claim3_threshold_decision (cfg : NanoCacheConfig)
    (emb : String → Except JsError (List ℝ)) (now : ℤ) (prompt : String) (s : Store)
    (qe : List ℝ) (M : ℝ)
    (hemb : emb prompt = .ok qe) (hnd : (s.map Prod.fst).Nodup)
    (hok : ∀ e ∈ entriesOf cfg.storagePrefix (postSweep cfg now s),
      ∃ v, calculateSimilarity qe e.embedding = .ok v)
    (hM : M = foldBest (simVal qe) 0 (entriesOf cfg.storagePrefix (postSweep cfg now s))) :
    (entriesOf cfg.storagePrefix (postSweep cfg now s) = [] →
      NanoCache.query cfg idbBackend emb now prompt s =
        (⟨false, none, none, none⟩, postSweep cfg now s))
    ∧ (entriesOf cfg.storagePrefix (postSweep cfg now s) ≠ [] →
        (0 < M → cfg.similarityThreshold ≤ M →
          ∃ m ∈ entriesOf cfg.storagePrefix (postSweep cfg now s),
            calculateSimilarity qe m.embedding = .ok M ∧
            NanoCache.query cfg idbBackend emb now prompt s =
              (⟨true, some m.response, some M, some m⟩, postSweep cfg now s))
        ∧ (M < cfg.similarityThreshold →
            NanoCache.query cfg idbBackend emb now prompt s =
              (⟨false, none, some M, none⟩, postSweep cfg now s))
        ∧ (M = 0 →
            NanoCache.query cfg idbBackend emb now prompt s =
              (⟨false, none, some M, none⟩, postSweep cfg now s))) := by
  subst hM
  have hq := query_idb cfg now hemb hnd
  constructor
  · intro hE
    rw [hq, hE]
    exact Prod.ext_iff.mpr ⟨rfl, rfl⟩
  · intro hne
    have hlen : ¬ (entriesOf cfg.storagePrefix (postSweep cfg now s)).length = 0 :=
      fun h => hne (List.length_eq_zero.mp h)
    have hscan := scanLoop_eq_spec hok ((none, 0) : Option CacheEntry × ℝ)
    have hsnd := scanSpec_snd (simVal qe) (entriesOf cfg.storagePrefix (postSweep cfg now s)) none 0
    refine ⟨?_, ?_, ?_⟩
    · intro hMpos hthr
      have hfind := scanSpec_fst_find (simVal qe)
        (entriesOf cfg.storagePrefix (postSweep cfg now s)) 0 none hMpos
      obtain ⟨e0, he0, hge0⟩ := foldBest_attained (simVal qe)
        (entriesOf cfg.storagePrefix (postSweep cfg now s)) 0 hMpos
      have hsome : ((entriesOf cfg.storagePrefix (postSweep cfg now s)).find?
          (fun e => decide (simVal qe e =
            foldBest (simVal qe) 0 (entriesOf cfg.storagePrefix (postSweep cfg now s))))).isSome :=
        List.find?_isSome.mpr ⟨e0, he0, by simp [hge0]⟩
      obtain ⟨m, hm⟩ := Option.isSome_iff_exists.mp hsome
      have hpred : simVal qe m =
          foldBest (simVal qe) 0 (entriesOf cfg.storagePrefix (postSweep cfg now s)) := by
        have hpt := List.find?_some hm
        simpa using hpt
      have hmem := List.mem_of_find?_eq_some hm
      obtain ⟨v, hv⟩ := hok m hmem
      have hvM : v = foldBest (simVal qe) 0 (entriesOf cfg.storagePrefix (postSweep cfg now s)) := by
        rw [← hpred]
        simp [simVal, hv, Except.toOption]
      have hspec : scanSpec (simVal qe) (entriesOf cfg.storagePrefix (postSweep cfg now s))
          (none, 0) = (some m,
            foldBest (simVal qe) 0 (entriesOf cfg.storagePrefix (postSweep cfg now s))) :=
        Prod.ext_iff.mpr ⟨by rw [hfind, hm], hsnd⟩
      refine ⟨m, hmem, by rw [← hvM]; exact hv, ?_⟩
      rw [hq]
      refine Prod.ext_iff.mpr ⟨?_, rfl⟩
      show queryPure cfg qe (entriesOf cfg.storagePrefix (postSweep cfg now s)) = _
      unfold queryPure queryPureE
      rw [if_neg hlen, hscan]
      dsimp only
      rw [hspec]
      simp only [decision]
      rw [if_pos (le_of_le_of_eq hthr rfl)]
    · intro hlt
      rw [hq]
      refine Prod.ext_iff.mpr ⟨?_, rfl⟩
      show queryPure cfg qe (entriesOf cfg.storagePrefix (postSweep cfg now s)) = _
      unfold queryPure queryPureE
      rw [if_neg hlen, hscan]
      dsimp only
      cases hb : (scanSpec (simVal qe) (entriesOf cfg.storagePrefix (postSweep cfg now s))
          (none, 0)).1 with
      | none =>
        have hspec : scanSpec (simVal qe) (entriesOf cfg.storagePrefix (postSweep cfg now s))
            (none, 0) = (none,
              foldBest (simVal qe) 0 (entriesOf cfg.storagePrefix (postSweep cfg now s))) :=
          Prod.ext_iff.mpr ⟨hb, hsnd⟩
        rw [hspec]
        simp only [decision]
      | some a =>
        have hspec : scanSpec (simVal qe) (entriesOf cfg.storagePrefix (postSweep cfg now s))
            (none, 0) = (some a,
              foldBest (simVal qe) 0 (entriesOf cfg.storagePrefix (postSweep cfg now s))) :=
          Prod.ext_iff.mpr ⟨hb, hsnd⟩
        rw [hspec]
        simp only [decision]
        rw [if_neg (not_le.mpr hlt)]
    · intro hz
      have hall : ∀ e ∈ entriesOf cfg.storagePrefix (postSweep cfg now s), simVal qe e ≤ 0 :=
        fun e he => hz ▸ foldBest_ge (simVal qe)
          (entriesOf cfg.storagePrefix (postSweep cfg now s)) 0 e he
      have hspec := scanSpec_fst_none (simVal qe) hall
      rw [hq]
      refine Prod.ext_iff.mpr ⟨?_, rfl⟩
      show queryPure cfg qe (entriesOf cfg.storagePrefix (postSweep cfg now s)) = _
      unfold queryPure queryPureE
      rw [if_neg hlen, hscan]
      dsimp only
      rw [hspec]
      simp only [decision]
      rw [hz]

/-! ## Concrete evaluation helpers -/

lemma scanLoop_nil (qe : List ℝ) (acc : Option CacheEntry × ℝ) : scanLoop qe [] acc = .ok acc := rfl

lemma scanLoop_cons (qe : List ℝ) (e : CacheEntry) (rest : List CacheEntry)
    (b : Option CacheEntry) (s : ℝ) {v : ℝ} (hv : calculateSimilarity qe e.embedding = .ok v) :
    scanLoop qe (e :: rest) (b, s) =
      scanLoop qe rest (if v > s then (some e, v) else (b, s)) := by
  simp only [scanLoop, hv]

lemma queryPure_scan (cfg : NanoCacheConfig) (qe : List ℝ) (E : List CacheEntry)
    (hne : E ≠ []) {br : Option CacheEntry × ℝ} (h : scanLoop qe E (none, 0) = .ok br) :
    queryPure cfg qe E = decision cfg.similarityThreshold br := by
  unfold queryPure queryPureE
  rw [if_neg (fun hl => hne (List.length_eq_zero.mp hl)), h]

lemma sumsq_one0 : sumsq [(1 : ℝ), 0] = 1 := by norm_num [sumsq]

lemma sumsq_zero1 : sumsq [(0 : ℝ), 1] = 1 := by norm_num [sumsq]

lemma calcSim_one0 : calculateSimilarity [(1 : ℝ), 0] [1, 0] = .ok 1 :=
  calcSim_self (by rw [sumsq_one0]; norm_num)

lemma calcSim_orth : calculateSimilarity [(1 : ℝ), 0] [0, 1] = .ok 0 := by
  unfold calculateSimilarity
  rw [if_neg (by norm_num), if_neg (by norm_num),
    if_neg (by rw [sumsq_one0, sumsq_zero1, Real.sqrt_one]; norm_num)]
  rw [sumsq_one0, sumsq_zero1, Real.sqrt_one]
  norm_num [dotList]

/-- An entry whose embedding `[1, 0]` is parallel to `embTwo`'s output. -/
noncomputable def entOne : CacheEntry := ⟨"a", [1, 0], "ra", 0, none⟩

/-- An entry whose embedding `[0, 1]` is orthogonal to `embTwo`'s output. -/
noncomputable def entOrth : CacheEntry := ⟨"a", [0, 1], "ra", 0, none⟩

/-- A configuration with similarity threshold `0` (and namespace `n`). -/
noncomputable def cfg0 : NanoCacheConfig := ⟨0, 0, "m", false, "n"⟩

/-- A configuration with similarity threshold `1/2` (and namespace `n`). -/
noncomputable def cfgN : NanoCacheConfig := ⟨1 / 2, 0, "m", false, "n"⟩

/-- A store holding only `entOne` under namespace `n`. -/
noncomputable def sOne : Store := [("n:x", entOne)]

/-- A store holding only `entOrth` under namespace `n`. -/
noncomputable def sOrth : Store := [("n:x", entOrth)]

lemma simVal_entOne : simVal [(1 : ℝ), 0] entOne = 1 := by
  simp [simVal, show calculateSimilarity [(1 : ℝ), 0] entOne.embedding = .ok 1 from calcSim_one0,
    Except.toOption]

lemma simVal_entOrth : simVal [(1 : ℝ), 0] entOrth = 0 := by
  simp [simVal, show calculateSimilarity [(1 : ℝ), 0] entOrth.embedding = .ok 0 from calcSim_orth,
    Except.toOption]

/-- Counterexample to C3 as stated: with threshold `0` and a single stored
entry orthogonal to the query embedding, the best similarity over the
(non-empty) entry set is `0`, which is `≥` the threshold — yet `query`
returns a Miss (carrying similarity `0`), because an entry becomes the
best match only by strictly exceeding the `0`-initialized running best. -/
theorem claim3_counterexample :
    cfg0.similarityThreshold = 0
    ∧ foldBest (simVal [(1 : ℝ), 0]) 0 (entriesOf cfg0.storagePrefix sOrth) = 0
    ∧ NanoCache.query cfg0 idbBackend embTwo 0 "q" sOrth =
        (⟨false, none, some 0, none⟩, sOrth) := by
  have hent : entriesOf cfg0.storagePrefix sOrth = [entOrth] := rfl
  refine ⟨rfl, ?_, ?_⟩
  · rw [hent]
    simp [foldBest, simVal_entOrth]
  · have hq := query_idb cfg0 0 (show embTwo "q" = .ok [1, 0] from rfl)
      (show ((sOrth.map Prod.fst).Nodup) by simp [sOrth])
    have hpost : postSweep cfg0 0 sOrth = sOrth := rfl
    rw [hq, hpost, hent]
    have hscan : scanLoop [(1 : ℝ), 0] [entOrth] (none, 0) = .ok (none, 0) := by
      rw [scanLoop_cons _ _ _ _ _ (show calculateSimilarity [(1 : ℝ), 0] entOrth.embedding =
        .ok 0 from calcSim_orth)]
      rw [if_neg (by norm_num)]
      exact scanLoop_nil _ _
    rw [queryPure_scan cfg0 [(1 : ℝ), 0] [entOrth] (by simp) hscan]
    simp only [decision]

/-- Witness for the amended C3 at a concrete Hit: threshold `1/2`, one
stored entry parallel to the query embedding (best similarity `1`). -/
theorem claim3_witness :
    ∃ m ∈ entriesOf cfgN.storagePrefix (postSweep cfgN 0 sOne),
      calculateSimilarity [(1 : ℝ), 0] m.embedding = .ok 1 ∧
      NanoCache.query cfgN idbBackend embTwo 0 "q" sOne =
        (⟨true, some m.response, some 1, some m⟩, postSweep cfgN 0 sOne) := by
  have hE : entriesOf cfgN.storagePrefix (postSweep cfgN 0 sOne) = [entOne] := rfl
  have hok : ∀ e ∈ entriesOf cfgN.storagePrefix (postSweep cfgN 0 sOne),
      ∃ v, calculateSimilarity [(1 : ℝ), 0] e.embedding = .ok v := by
    rw [hE]
    intro e he
    rw [List.mem_singleton.mp he]
    exact ⟨1, calcSim_one0⟩
  have hM : (1 : ℝ) = foldBest (simVal [(1 : ℝ), 0])
      0 (entriesOf cfgN.storagePrefix (postSweep cfgN 0 sOne)) := by
    rw [hE]
    simp [foldBest, simVal_entOne]
  exact (claim3_threshold_decision cfgN embTwo 0 "q" sOne [(1 : ℝ), 0] 1 rfl
    (by simp [sOne]) hok hM).2 (by rw [hE]; simp) |>.1 (by norm_num)
    (by show cfgN.similarityThreshold ≤ 1; rw [show cfgN.similarityThreshold = 1 / 2 from rfl]
        norm_num)

/-- C10: when the scanned entry set is non-empty and every entry has
similarity exactly `0` to the query embedding, `query` returns a Miss
carrying similarity `0`, for every configured threshold — even a threshold
of `0` cannot produce a Hit, because an entry is selected as best match
only by strictly exceeding the `0`-initialized running best. -/
theorem claim10_zero_similarity_miss (cfg : NanoCacheConfig)
    (emb : String → Except JsError (List ℝ)) (now : ℤ) (prompt : String) (s : Store)
    (qe : List ℝ) (hemb : emb prompt = .ok qe) (hnd : (s.map Prod.fst).Nodup)
    (hne : entriesOf cfg.storagePrefix (postSweep cfg now s) ≠ [])
    (hzero : ∀ e ∈ entriesOf cfg.storagePrefix (postSweep cfg now s),
      calculateSimilarity qe e.embedding = .ok 0) :
    NanoCache.query cfg idbBackend emb now prompt s =
      (⟨false, none, some 0, none⟩, postSweep cfg now s) := by
  have hok : ∀ e ∈ entriesOf cfg.storagePrefix (postSweep cfg now s),
      ∃ v, calculateSimilarity qe e.embedding = .ok v := fun e he => ⟨0, hzero e he⟩
  have hall : ∀ e ∈ entriesOf cfg.storagePrefix (postSweep cfg now s), simVal qe e ≤ 0 :=
    fun e he => by simp [simVal, hzero e he, Except.toOption]
  have hscan := scanLoop_eq_spec hok ((none, 0) : Option CacheEntry × ℝ)
  have hspec := scanSpec_fst_none (simVal qe) hall
  rw [query_idb cfg now hemb hnd]
  refine Prod.ext_iff.mpr ⟨?_, rfl⟩
  show queryPure cfg qe (entriesOf cfg.storagePrefix (postSweep cfg now s)) = _
  rw [queryPure_scan cfg qe (entriesOf cfg.storagePrefix (postSweep cfg now s)) hne
    (by rw [hscan, hspec])]
  simp only [decision]

/-- Witness for C10: threshold `0`, one entry orthogonal to the query
embedding — still a Miss, with similarity `0`. -/
theorem claim10_witness :
    NanoCache.query cfg0 idbBackend embTwo 0 "q" sOrth =
      (⟨false, none, some 0, none⟩, postSweep cfg0 0 sOrth) := by
  have hent : entriesOf cfg0.storagePrefix (postSweep cfg0 0 sOrth) = [entOrth] := rfl
  refine claim10_zero_similarity_miss cfg0 embTwo 0 "q" sOrth [(1 : ℝ), 0] rfl
    (by simp [sOrth]) (by rw [hent]; simp) ?_
  rw [hent]
  intro e he
  rw [List.mem_singleton.mp he]
  exact calcSim_orth

/-- A second entry parallel to the query embedding, with a different
response, stored after `entOne` in iteration order. -/
noncomputable def entOneB : CacheEntry := ⟨"b", [1, 0], "rb", 0, none⟩

/-- A store holding the tied entries `entOne` then `entOneB`. -/
noncomputable def sTie : Store := [("n:x", entOne), ("n:y", entOneB)]

lemma simVal_entOneB : simVal [(1 : ℝ), 0] entOneB = 1 := by
  simp [simVal, show calculateSimilarity [(1 : ℝ), 0] entOneB.embedding = .ok 1 from calcSim_one0,
    Except.toOption]

/-- C7: whenever `query` returns a Hit (with, in particular, two or more
scanned entries achieving the maximum similarity `M`), the entry carried by
the result is the first entry in scan order achieving `M`: the scanned set
splits as `l₁ ++ m :: l₂` with every entry of `l₁` scoring strictly below
the maximum and `m` the returned entry. -/
theorem claim7_first_max_wins (cfg : NanoCacheConfig)
    (emb : String → Except JsError (List ℝ)) (now : ℤ) (prompt : String) (s : Store)
    (qe : List ℝ) (M : ℝ) (hemb : emb prompt = .ok qe) (hnd : (s.map Prod.fst).Nodup)
    (hok : ∀ e ∈ entriesOf cfg.storagePrefix (postSweep cfg now s),
      ∃ v, calculateSimilarity qe e.embedding = .ok v)
    (hM : M = foldBest (simVal qe) 0 (entriesOf cfg.storagePrefix (postSweep cfg now s)))
    (htie : 2 ≤ (entriesOf cfg.storagePrefix (postSweep cfg now s)).countP
      (fun e => decide (simVal qe e = M)))
    (hhit : (NanoCache.query cfg idbBackend emb now prompt s).1.hit = true) :
    ∃ l₁ m l₂, entriesOf cfg.storagePrefix (postSweep cfg now s) = l₁ ++ m :: l₂ ∧
      simVal qe m = M ∧ (∀ x ∈ l₁, simVal qe x ≠ M) ∧
      (NanoCache.query cfg idbBackend emb now prompt s).1.entry = some m := by
  subst hM
  have hq := query_idb cfg now hemb hnd
  by_cases hE : entriesOf cfg.storagePrefix (postSweep cfg now s) = []
  · rw [hq, hE] at hhit
    exact absurd hhit (by simp [queryPure, queryPureE])
  · have hscan := scanLoop_eq_spec hok ((none, 0) : Option CacheEntry × ℝ)
    have hqp : queryPure cfg qe (entriesOf cfg.storagePrefix (postSweep cfg now s)) =
        decision cfg.similarityThreshold
          (scanSpec (simVal qe) (entriesOf cfg.storagePrefix (postSweep cfg now s)) (none, 0)) :=
      queryPure_scan cfg qe _ hE hscan
    have hsnd := scanSpec_snd (simVal qe) (entriesOf cfg.storagePrefix (postSweep cfg now s)) none 0
    cases hb : (scanSpec (simVal qe) (entriesOf cfg.storagePrefix (postSweep cfg now s))
        (none, 0)).1 with
    | none =>
      have hspec : scanSpec (simVal qe) (entriesOf cfg.storagePrefix (postSweep cfg now s))
          (none, 0) = (none, foldBest (simVal qe) 0
            (entriesOf cfg.storagePrefix (postSweep cfg now s))) := Prod.ext_iff.mpr ⟨hb, hsnd⟩
      rw [hq] at hhit
      have hhit' : (queryPure cfg qe
          (entriesOf cfg.storagePrefix (postSweep cfg now s))).hit = true := hhit
      rw [hqp, hspec] at hhit'
      exact absurd hhit' (by simp [decision])
    | some a =>
      have hge0 : (0 : ℝ) ≤ foldBest (simVal qe) 0
          (entriesOf cfg.storagePrefix (postSweep cfg now s)) :=
        le_foldBest (simVal qe) (entriesOf cfg.storagePrefix (postSweep cfg now s)) 0
      have hMpos : (0 : ℝ) < foldBest (simVal qe) 0
          (entriesOf cfg.storagePrefix (postSweep cfg now s)) := by
        rcases lt_or_eq_of_le hge0 with h | h
        · exact h
        · exfalso
          have hall : ∀ e ∈ entriesOf cfg.storagePrefix (postSweep cfg now s),
              simVal qe e ≤ 0 := fun e he =>
            le_of_le_of_eq (foldBest_ge (simVal qe)
              (entriesOf cfg.storagePrefix (postSweep cfg now s)) 0 e he) h.symm
          rw [scanSpec_fst_none (simVal qe) hall] at hb
          cases hb
      have hfind := scanSpec_fst_find (simVal qe)
        (entriesOf cfg.storagePrefix (postSweep cfg now s)) 0 none hMpos
      rw [hfind] at hb
      obtain ⟨l₁, l₂, hsplit, hfalse⟩ := find?_split hb
      have hpred : simVal qe a = foldBest (simVal qe) 0
          (entriesOf cfg.storagePrefix (postSweep cfg now s)) := by
        have hpt := List.find?_some hb
        simpa using hpt
      have hspec : scanSpec (simVal qe) (entriesOf cfg.storagePrefix (postSweep cfg now s))
          (none, 0) = (some a, foldBest (simVal qe) 0
            (entriesOf cfg.storagePrefix (postSweep cfg now s))) :=
        Prod.ext_iff.mpr ⟨by rw [hfind, hb], hsnd⟩
      have hth : foldBest (simVal qe) 0 (entriesOf cfg.storagePrefix (postSweep cfg now s)) ≥
          cfg.similarityThreshold := by
        by_contra hth
        rw [hq] at hhit
        have hhit' : (queryPure cfg qe
            (entriesOf cfg.storagePrefix (postSweep cfg now s))).hit = true := hhit
        rw [hqp, hspec] at hhit'
        simp only [decision] at hhit'
        rw [if_neg hth] at hhit'
        cases hhit'
      refine ⟨l₁, a, l₂, hsplit, hpred, ?_, ?_⟩
      · intro x hx heq
        have hfx := hfalse x hx
        rw [heq] at hfx
        simp at hfx
      · rw [hq]
        show (queryPure cfg qe (entriesOf cfg.storagePrefix (postSweep cfg now s))).entry = _
        rw [hqp, hspec]
        simp only [decision]
        rw [if_pos hth]

/-- Witness for C7 at a concrete tie: two stored entries both with
similarity `1`; the first in scan order (`entOne`) is the returned entry. -/
theorem claim7_witness :
    ∃ l₁ m l₂, entriesOf cfgN.storagePrefix (postSweep cfgN 0 sTie) = l₁ ++ m :: l₂ ∧
      simVal [(1 : ℝ), 0] m = 1 ∧ (∀ x ∈ l₁, simVal [(1 : ℝ), 0] x ≠ 1) ∧
      (NanoCache.query cfgN idbBackend embTwo 0 "q" sTie).1.entry = some m := by
  have hE : entriesOf cfgN.storagePrefix (postSweep cfgN 0 sTie) = [entOne, entOneB] := rfl
  have hok : ∀ e ∈ entriesOf cfgN.storagePrefix (postSweep cfgN 0 sTie),
      ∃ v, calculateSimilarity [(1 : ℝ), 0] e.embedding = .ok v := by
    rw [hE]
    intro e he
    rcases List.mem_cons.mp he with h | h
    · rw [h]; exact ⟨1, calcSim_one0⟩
    · rw [List.mem_singleton.mp h]; exact ⟨1, calcSim_one0⟩
  have hM : (1 : ℝ) = foldBest (simVal [(1 : ℝ), 0]) 0
      (entriesOf cfgN.storagePrefix (postSweep cfgN 0 sTie)) := by
    rw [hE]
    simp [foldBest, simVal_entOne, simVal_entOneB]
  have htie : 2 ≤ (entriesOf cfgN.storagePrefix (postSweep cfgN 0 sTie)).countP
      (fun e => decide (simVal [(1 : ℝ), 0] e = 1)) := by
    rw [hE]
    simp [List.countP_cons, simVal_entOne, simVal_entOneB]
  have hscan : scanLoop [(1 : ℝ), 0] [entOne, entOneB] (none, 0) = .ok (some entOne, 1) := by
    rw [scanLoop_cons _ _ _ _ _ (show calculateSimilarity [(1 : ℝ), 0] entOne.embedding = .ok 1
      from calcSim_one0), if_pos (by norm_num)]
    rw [scanLoop_cons _ _ _ _ _ (show calculateSimilarity [(1 : ℝ), 0] entOneB.embedding = .ok 1
      from calcSim_one0), if_neg (by norm_num)]
    exact scanLoop_nil _ _
  have hres : NanoCache.query cfgN idbBackend embTwo 0 "q" sTie =
      (⟨true, some entOne.response, some 1, some entOne⟩, postSweep cfgN 0 sTie) := by
    rw [query_idb cfgN 0 (show embTwo "q" = .ok [1, 0] from rfl) (by simp [sTie])]
    refine Prod.ext_iff.mpr ⟨?_, rfl⟩
    show queryPure cfgN [(1 : ℝ), 0] (entriesOf cfgN.storagePrefix (postSweep cfgN 0 sTie)) = _
    rw [hE, queryPure_scan cfgN _ _ (by simp) hscan]
    simp only [decision]
    rw [if_pos (by show (1 : ℝ) ≥ cfgN.similarityThreshold
                   rw [show cfgN.similarityThreshold = 1 / 2 from rfl]
                   norm_num)]
  exact claim7_first_max_wins cfgN embTwo 0 "q" sTie [(1 : ℝ), 0] 1 rfl (by simp [sTie])
    hok hM htie (by rw [hres])

/-! ## Integer fold min/max lemmas (for `getStats`) -/

lemma foldlMin_le_init : ∀ (xs : List ℤ) (a : ℤ), xs.foldl min a ≤ a := by
  intro xs
  induction xs with
  | nil => intro a; exact le_refl a
  | cons x r ih => intro a; exact le_trans (ih (min a x)) (min_le_left a x)

lemma foldlMin_le : ∀ (xs : List ℤ) (a t : ℤ), t ∈ a :: xs → xs.foldl min a ≤ t := by
  intro xs
  induction xs with
  | nil =>
    intro a t ht
    rw [List.mem_singleton.mp ht]
    exact le_refl a
  | cons x r ih =>
    intro a t ht
    rw [List.foldl_cons]
    rcases List.mem_cons.mp ht with h | h
    · subst h
      exact le_trans (foldlMin_le_init r (min t x)) (min_le_left t x)
    · rcases List.mem_cons.mp h with h' | h'
      · subst h'
        exact le_trans (foldlMin_le_init r (min a t)) (min_le_right a t)
      · exact ih (min a x) t (List.mem_cons_of_mem _ h')

lemma foldlMin_mem : ∀ (xs : List ℤ) (a : ℤ), xs.foldl min a ∈ a :: xs := by
  intro xs
  induction xs with
  | nil => intro a; exact List.mem_singleton_self a
  | cons x r ih =>
    intro a
    rw [List.foldl_cons]
    have h := ih (min a x)
    rcases List.mem_cons.mp h with h' | h'
    · rcases min_choice a x with hm | hm
      · rw [h', hm]
        exact List.mem_cons_self a (x :: r)
      · rw [h', hm]
        exact List.mem_cons_of_mem a (List.mem_cons_self x r)
    · exact List.mem_cons_of_mem a (List.mem_cons_of_mem x h')

lemma foldlMax_ge_init : ∀ (xs : List ℤ) (a : ℤ), a ≤ xs.foldl max a := by
  intro xs
  induction xs with
  | nil => intro a; exact le_refl a
  | cons x r ih => intro a; exact le_trans (le_max_left a x) (ih (max a x))

lemma foldlMax_ge : ∀ (xs : List ℤ) (a t : ℤ), t ∈ a :: xs → t ≤ xs.foldl max a := by
  intro xs
  induction xs with
  | nil =>
    intro a t ht
    rw [List.mem_singleton.mp ht]
    exact le_refl a
  | cons x r ih =>
    intro a t ht
    rw [List.foldl_cons]
    rcases List.mem_cons.mp ht with h | h
    · subst h
      exact le_trans (le_max_left t x) (foldlMax_ge_init r (max t x))
    · rcases List.mem_cons.mp h with h' | h'
      · subst h'
        exact le_trans (le_max_right a t) (foldlMax_ge_init r (max a t))
      · exact ih (max a x) t (List.mem_cons_of_mem _ h')

lemma foldlMax_mem : ∀ (xs : List ℤ) (a : ℤ), xs.foldl max a ∈ a :: xs := by
  intro xs
  induction xs with
  | nil => intro a; exact List.mem_singleton_self a
  | cons x r ih =>
    intro a
    rw [List.foldl_cons]
    have h := ih (max a x)
    rcases List.mem_cons.mp h with h' | h'
    · rcases max_choice a x with hm | hm
      · rw [h', hm]
        exact List.mem_cons_self a (x :: r)
      · rw [h', hm]
        exact List.mem_cons_of_mem a (List.mem_cons_self x r)
    · exact List.mem_cons_of_mem a (List.mem_cons_of_mem x h')

/-- C9: `getStats` is a pure read: it leaves the store untouched (in
particular it never runs the expiration sweep — it does not even take a
clock or maximum age as input, so entries past their maximum age are still
counted until a later `query` sweeps).  It reports the count of entries
currently under the namespace, and the minimum and maximum timestamp across
them, with both bounds absent exactly when the set is empty. -/
theorem claim9_getStats_read_only (cfg : NanoCacheConfig) (s : Store)
    (hnd : (s.map Prod.fst).Nodup) :
    ∃ st, NanoCache.getStats cfg idbBackend s = (.ok st, s)
      ∧ st.totalEntries = (entriesOf cfg.storagePrefix s).length
      ∧ (entriesOf cfg.storagePrefix s = [] →
          st.oldestEntry = none ∧ st.newestEntry = none)
      ∧ (entriesOf cfg.storagePrefix s ≠ [] →
          ∃ o w, st.oldestEntry = some o ∧ st.newestEntry = some w
            ∧ o ∈ (entriesOf cfg.storagePrefix s).map (fun e => e.timestamp)
            ∧ w ∈ (entriesOf cfg.storagePrefix s).map (fun e => e.timestamp)
            ∧ ∀ t ∈ (entriesOf cfg.storagePrefix s).map (fun e => e.timestamp),
                o ≤ t ∧ t ≤ w) := by
  have hga : CacheStorage.getAll idbBackend (storageOf cfg) s =
      (.ok (entriesOf cfg.storagePrefix s), s) :=
    getAll_idb_entries cfg.storagePrefix s hnd
  have hstep : NanoCache.getStats cfg idbBackend s =
      KVM.ret (match entriesOf cfg.storagePrefix s with
        | [] => (⟨0, none, none⟩ : CacheStats)
        | e :: es =>
          ⟨(e :: es).length,
           some (es.foldl (fun m x => min m x.timestamp) e.timestamp),
           some (es.foldl (fun m x => max m x.timestamp) e.timestamp)⟩) s := by
    unfold NanoCache.getStats CacheStorage.getStats
    rw [KVM.bind_run_ok hga]
  cases hE : entriesOf cfg.storagePrefix s with
  | nil =>
    refine ⟨⟨0, none, none⟩, ?_, rfl, fun _ => ⟨rfl, rfl⟩, fun hne => absurd rfl hne⟩
    rw [hstep, hE]
    rfl
  | cons e es =>
    refine ⟨⟨(e :: es).length,
      some (es.foldl (fun m x => min m x.timestamp) e.timestamp),
      some (es.foldl (fun m x => max m x.timestamp) e.timestamp)⟩, ?_, rfl, ?_, ?_⟩
    · rw [hstep, hE]
      rfl
    · intro h
      cases h
    · intro _
      have hmin : es.foldl (fun m x => min m x.timestamp) e.timestamp =
          (es.map (fun x => x.timestamp)).foldl min e.timestamp := by
        rw [List.foldl_map]
      have hmax : es.foldl (fun m x => max m x.timestamp) e.timestamp =
          (es.map (fun x => x.timestamp)).foldl max e.timestamp := by
        rw [List.foldl_map]
      refine ⟨_, _, rfl, rfl, ?_, ?_, ?_⟩
      · rw [List.map_cons, hmin]
        exact foldlMin_mem (es.map (fun x => x.timestamp)) e.timestamp
      · rw [List.map_cons, hmax]
        exact foldlMax_mem (es.map (fun x => x.timestamp)) e.timestamp
      · intro t ht
        rw [List.map_cons] at ht
        rw [hmin, hmax]
        exact ⟨foldlMin_le (es.map (fun x => x.timestamp)) e.timestamp t ht,
               foldlMax_ge (es.map (fun x => x.timestamp)) e.timestamp t ht⟩

/-- An entry with timestamp `3`. -/
noncomputable def entT3 : CacheEntry := ⟨"a", [1, 0], "ra", 3, none⟩

/-- An entry with timestamp `7`. -/
noncomputable def entT7 : CacheEntry := ⟨"b", [1, 0], "rb", 7, none⟩

/-- Witness for C9 at a concrete two-entry store (timestamps 3 and 7). -/
theorem claim9_witness :
    ∃ st, NanoCache.getStats cfgN idbBackend [("n:x", entT3), ("n:y", entT7)] =
        (.ok st, [("n:x", entT3), ("n:y", entT7)])
      ∧ st.totalEntries =
          (entriesOf cfgN.storagePrefix [("n:x", entT3), ("n:y", entT7)]).length
      ∧ (entriesOf cfgN.storagePrefix [("n:x", entT3), ("n:y", entT7)] = [] →
          st.oldestEntry = none ∧ st.newestEntry = none)
      ∧ (entriesOf cfgN.storagePrefix [("n:x", entT3), ("n:y", entT7)] ≠ [] →
          ∃ o w, st.oldestEntry = some o ∧ st.newestEntry = some w
            ∧ o ∈ (entriesOf cfgN.storagePrefix [("n:x", entT3), ("n:y", entT7)]).map
                (fun e => e.timestamp)
            ∧ w ∈ (entriesOf cfgN.storagePrefix [("n:x", entT3), ("n:y", entT7)]).map
                (fun e => e.timestamp)
            ∧ ∀ t ∈ (entriesOf cfgN.storagePrefix [("n:x", entT3), ("n:y", entT7)]).map
                (fun e => e.timestamp), o ≤ t ∧ t ≤ w) :=
  claim9_getStats_read_only cfgN [("n:x", entT3), ("n:y", entT7)] (by simp)

/-! ## Namespace isolation (C6) -/

/-- A configuration whose namespace is the single letter `a` (a string
prefix of `ab`). -/
noncomputable def cfgA : NanoCacheConfig := ⟨1 / 2, 0, "m", false, "a"⟩

/-- Counterexample to C6 as stated: the two distinct namespace strings `a`
and `ab` share the same underlying store; the instance with namespace `a`
deletes the `ab`-instance's entry on `clear()` (the swept store is empty)
and observes it through `getAll` — because key scoping is a raw
`startsWith` test, `a` matches every `ab:`-prefixed key. -/
theorem claim6_counterexample :
    ("a" : String) ≠ "ab"
    ∧ NanoCache.clear cfgA idbBackend [(CacheStorage.getKey ⟨"ab"⟩ "x", entOne)] =
        (.ok (), [])
    ∧ (CacheStorage.getAll idbBackend ⟨"a"⟩ [(CacheStorage.getKey ⟨"ab"⟩ "x", entOne)]).1 =
        .ok [entOne] :=
  ⟨by decide, rfl, rfl⟩

lemma strStartsWith_false_iff (s pre : String) :
    strStartsWith s pre = false ↔ ¬ pre.toList <+: s.toList := by
  unfold strStartsWith
  rw [Bool.eq_false_iff, Ne]
  constructor
  · intro h hp
    exact h ( List.isPrefixOf_iff_prefix.mpr hp)
  · intro h hp
    exact h ( List.isPrefixOf_iff_prefix.mp hp)

lemma getKey_toList (p id : String) :
    (CacheStorage.getKey ⟨p⟩ id).toList = p.toList ++ (":" ++ id).toList := by
  show (p ++ ":" ++ id).data = p.data ++ (":" ++ id).data
  rw [String.data_append (p ++ ":") id, String.data_append p ":",
    String.data_append ":" id, List.append_assoc]

lemma getKey_not_in_other (pA pB : String) (hAB : strStartsWith pB pA = false)
    (hBA : strStartsWith pA pB = false) (id : String) :
    strStartsWith (CacheStorage.getKey ⟨pB⟩ id) pA = false := by
  have hA : ¬ pA.toList <+: pB.toList := (strStartsWith_false_iff pB pA).mp hAB
  have hB : ¬ pB.toList <+: pA.toList := (strStartsWith_false_iff pA pB).mp hBA
  rw [strStartsWith_false_iff]
  intro hpre
  rw [getKey_toList] at hpre
  have hpB : pB.toList <+: pB.toList ++ (":" ++ id).toList := List.prefix_append _ _
  by_cases hlen : pA.toList.length ≤ pB.toList.length
  · exact hA (List.prefix_of_prefix_length_le hpre hpB hlen)
  · exact hB (List.prefix_of_prefix_length_le hpB hpre (le_of_lt (not_le.mp hlen)))

/-- C6 as amended: provided neither namespace string is a string prefix of
the other, the two instances are isolated: (i) `clear` on the `pA`
instance deletes exactly the bindings whose key starts with `pA`;
(ii)/(iii) a key written by one instance never starts with the other's
namespace; (iv) hence a binding written by the `pB` instance survives the
`pA` instance's `clear`; (v) `getAll` on the `pA` instance — through which
`query` and `getStats` observe the store — returns exactly the values of
the `pA`-prefixed bindings, so it never observes the `pB` instance's
entries. -/
theorem claim6_namespace_isolation (pA pB : String)
    (hAB : strStartsWith pB pA = false) (hBA : strStartsWith pA pB = false) :
    (∀ s : Store, CacheStorage.clear idbBackend ⟨pA⟩ s =
        (.ok (), s.filter (fun kv => !(strStartsWith kv.1 pA))))
    ∧ (∀ id : String, strStartsWith (CacheStorage.getKey ⟨pB⟩ id) pA = false)
    ∧ (∀ id : String, strStartsWith (CacheStorage.getKey ⟨pA⟩ id) pB = false)
    ∧ (∀ (id : String) (e : CacheEntry) (s : Store),
        (CacheStorage.getKey ⟨pB⟩ id, e) ∈ s →
        (CacheStorage.getKey ⟨pB⟩ id, e) ∈ (CacheStorage.clear idbBackend ⟨pA⟩ s).2)
    ∧ (∀ s : Store, (s.map Prod.fst).Nodup →
        CacheStorage.getAll idbBackend ⟨pA⟩ s =
          (.ok ((s.filter (fun kv => strStartsWith kv.1 pA)).map Prod.snd), s)) := by
  refine ⟨fun s => clear_idb pA s, getKey_not_in_other pA pB hAB hBA,
    getKey_not_in_other pB pA hBA hAB, ?_, fun s hnd => getAll_idb_entries pA s hnd⟩
  intro id e s hmem
  rw [clear_idb]
  refine List.mem_filter.mpr ⟨hmem, ?_⟩
  rw [getKey_not_in_other pA pB hAB hBA id]
  rfl

/-- A store holding one binding of each of the namespaces `alpha` and
`beta`. -/
noncomputable def sW : Store :=
  [(CacheStorage.getKey ⟨"alpha"⟩ "x", entT3), (CacheStorage.getKey ⟨"beta"⟩ "y", entT7)]

/-- Witness for the amended C6 at namespaces `alpha`/`beta` over a
concrete shared store. -/
theorem claim6_witness :
    CacheStorage.clear idbBackend ⟨"alpha"⟩ sW =
      (.ok (), sW.filter (fun kv => !(strStartsWith kv.1 "alpha")))
    ∧ strStartsWith (CacheStorage.getKey ⟨"beta"⟩ "y") "alpha" = false
    ∧ (CacheStorage.getKey ⟨"beta"⟩ "y", entT7) ∈
        (CacheStorage.clear idbBackend ⟨"alpha"⟩ sW).2
    ∧ CacheStorage.getAll idbBackend ⟨"alpha"⟩ sW =
        (.ok ((sW.filter (fun kv => strStartsWith kv.1 "alpha")).map Prod.snd), sW) := by
  have h := claim6_namespace_isolation "alpha" "beta" (by decide) (by decide)
  exact ⟨h.1 sW, h.2.1 "y", h.2.2.2.1 "y" entT7 sW
    (List.mem_cons_of_mem _ (List.mem_singleton_self _)), h.2.2.2.2 sW (by decide)⟩

/-! ## Expiration (C5) -/

/-- A configuration with `maxAge = 5` ms, threshold `1/2`, namespace `n`. -/
noncomputable def cfgM5 : NanoCacheConfig := ⟨1 / 2, 5, "m", false, "n"⟩

/-- Counterexample to C5 as stated: an entry saved at time `T = 0` with
`maxAge = 5`, queried at `now = T + maxAge = 5`.  The claim requires the
entry to be deleted by the sweep and not to influence the query; but the
sweep removes an entry only when `now - timestamp` STRICTLY exceeds
`maxAge`, so at the boundary the entry survives and even produces a Hit. -/
theorem claim5_counterexample :
    cfgM5.maxAge = 5 ∧ entOne.timestamp = 0
    ∧ NanoCache.query cfgM5 idbBackend embTwo 5 "q" sOne =
        (⟨true, some entOne.response, some 1, some entOne⟩, sOne) := by
  refine ⟨rfl, rfl, ?_⟩
  rw [query_idb cfgM5 5 (show embTwo "q" = .ok [1, 0] from rfl) (by simp [sOne])]
  have hpost : postSweep cfgM5 5 sOne = sOne := rfl
  rw [hpost, show entriesOf cfgM5.storagePrefix sOne = [entOne] from rfl]
  have hscan : scanLoop [(1 : ℝ), 0] [entOne] (none, 0) = .ok (some entOne, 1) := by
    rw [scanLoop_cons _ _ _ _ _ (show calculateSimilarity [(1 : ℝ), 0] entOne.embedding = .ok 1
      from calcSim_one0), if_pos (by norm_num)]
    exact scanLoop_nil _ _
  rw [queryPure_scan cfgM5 _ _ (by simp) hscan]
  simp only [decision]
  rw [if_pos (by show (1 : ℝ) ≥ cfgM5.similarityThreshold
                 rw [show cfgM5.similarityThreshold = 1 / 2 from rfl]
                 norm_num)]

/-- C5 as amended: with a configured maximum age `M > 0`, an entry stored
under its own key (namespace + prompt hash) whose age STRICTLY exceeds `M`
at query time (`now - timestamp > M`) is deleted by the sweep that opens
`query`: its key is gone from the swept store, and the query result is
computed purely from the swept store's entry set — so the expired entry
never influences that query's result. -/
theorem claim5_expiration_sweep (cfg : NanoCacheConfig) (now : ℤ) (s : Store)
    (E : CacheEntry) (hmax : cfg.maxAge > 0) (hnd : (s.map Prod.fst).Nodup)
    (hmem : ((storageOf cfg).getKey (hashPrompt E.prompt), E) ∈ s)
    (hexp : now - E.timestamp > cfg.maxAge) :
    ((storageOf cfg).getKey (hashPrompt E.prompt)) ∉ (postSweep cfg now s).map Prod.fst
    ∧ ∀ (emb : String → Except JsError (List ℝ)) (prompt : String) (qe : List ℝ),
        emb prompt = .ok qe →
        NanoCache.query cfg idbBackend emb now prompt s =
          (queryPure cfg qe (entriesOf cfg.storagePrefix (postSweep cfg now s)),
           postSweep cfg now s) := by
  constructor
  · have hEmem : E ∈ entriesOf cfg.storagePrefix s := by
      refine List.mem_map.mpr ⟨((storageOf cfg).getKey (hashPrompt E.prompt), E), ?_, rfl⟩
      refine List.mem_filter.mpr ⟨hmem, ?_⟩
      exact strStartsWith_getKey cfg.storagePrefix (hashPrompt E.prompt)
    have hkey : ((storageOf cfg).getKey (hashPrompt E.prompt)) ∈
        expiredKeys ⟨cfg.storagePrefix⟩ cfg.maxAge now (entriesOf cfg.storagePrefix s) := by
      refine List.mem_map.mpr ⟨E, ?_, rfl⟩
      exact List.mem_filter.mpr ⟨hEmem, decide_eq_true hexp⟩
    unfold postSweep
    rw [if_pos hmax]
    intro hin
    obtain ⟨kv, hkv, hfst⟩ := List.mem_map.mp hin
    have hpred := of_decide_eq_true (List.mem_filter.mp hkv).2
    rw [hfst] at hpred
    exact hpred hkey
  · intro emb prompt qe hemb
    exact query_idb cfg now hemb hnd

/-- A store binding `entOne` under its own key (namespace `n`, prompt
hash). -/
noncomputable def sExp : Store :=
  [((storageOf cfgM5).getKey (hashPrompt entOne.prompt), entOne)]

/-- Witness for the amended C5: `maxAge = 5`, entry saved at `T = 0`,
query at `now = 6 > T + maxAge`: the key is swept, and the query result is
a function of the swept store. -/
theorem claim5_witness :
    ((storageOf cfgM5).getKey (hashPrompt entOne.prompt)) ∉ (postSweep cfgM5 6 sExp).map Prod.fst
    ∧ NanoCache.query cfgM5 idbBackend embTwo 6 "q" sExp =
        (queryPure cfgM5 [(1 : ℝ), 0] (entriesOf cfgM5.storagePrefix (postSweep cfgM5 6 sExp)),
         postSweep cfgM5 6 sExp) := by
  have h := claim5_expiration_sweep cfgM5 6 sExp entOne (by decide) (by simp [sExp])
    (List.mem_singleton_self _) (by decide)
  exact ⟨h.1, h.2 embTwo "q" [(1 : ℝ), 0] rfl⟩

/-! ## Round-trip (C4) -/

lemma queryPure_hit_max (cfg : NanoCacheConfig) (qe : List ℝ) (E : List CacheEntry) (M : ℝ)
    (hne : E ≠ [])
    (hok : ∀ e ∈ E, ∃ v, calculateSimilarity qe e.embedding = .ok v)
    (hM : M = foldBest (simVal qe) 0 E) (hMpos : 0 < M)
    (hthr : cfg.similarityThreshold ≤ M) :
    ∃ m ∈ E, simVal qe m = M ∧
      queryPure cfg qe E = ⟨true, some m.response, some M, some m⟩ := by
  subst hM
  have hscan := scanLoop_eq_spec hok ((none, 0) : Option CacheEntry × ℝ)
  have hsnd := scanSpec_snd (simVal qe) E none 0
  have hfind := scanSpec_fst_find (simVal qe) E 0 none hMpos
  obtain ⟨e0, he0, hge0⟩ := foldBest_attained (simVal qe) E 0 hMpos
  have hsome : (E.find? (fun e => decide (simVal qe e = foldBest (simVal qe) 0 E))).isSome :=
    List.find?_isSome.mpr ⟨e0, he0, by simp [hge0]⟩
  obtain ⟨m, hm⟩ := Option.isSome_iff_exists.mp hsome
  have hpred : simVal qe m = foldBest (simVal qe) 0 E := by
    have hpt := List.find?_some hm
    simpa using hpt
  have hmem := List.mem_of_find?_eq_some hm
  have hspec : scanSpec (simVal qe) E (none, 0) =
      (some m, foldBest (simVal qe) 0 E) := Prod.ext_iff.mpr ⟨by rw [hfind, hm], hsnd⟩
  refine ⟨m, hmem, hpred, ?_⟩
  rw [queryPure_scan cfg qe E hne (by rw [hscan, hspec])]
  simp only [decision]
  rw [if_pos (le_of_le_of_eq hthr rfl)]

/-- The entry created by `save("b", "rb")` under the `embTwo` provider at
time `0`. -/
noncomputable def entB : CacheEntry := ⟨"b", [1, 0], "rb", 0, none⟩

/-- A store already holding `entOne` (prompt `a`, response `ra`) whose
embedding is parallel to every `embTwo` output. -/
noncomputable def s4 : Store := [("n:k1", entOne)]

/-- Counterexample to C4 as stated: `save("b", "rb")` followed immediately
by `query("b")` (deterministic provider, non-zero embedding) over a store
already holding an entry with an identical embedding and response `ra`.
The query hits with similarity `1`, but the response is `ra` — the earlier
tied entry in scan order — not the just-saved `rb`. -/
theorem claim4_counterexample :
    (NanoCache.save cfgN idbBackend embTwo 0 "b" "rb" none s4).1 = .ok ()
    ∧ (NanoCache.query cfgN idbBackend embTwo 0 "b"
        (NanoCache.save cfgN idbBackend embTwo 0 "b" "rb" none s4).2).1 =
      ⟨true, some "ra", some 1, some entOne⟩
    ∧ ("ra" : String) ≠ "rb" := by
  have hsave : NanoCache.save cfgN idbBackend embTwo 0 "b" "rb" none s4 =
      (.ok (), setStore (CacheStorage.getKey (storageOf cfgN) (hashPrompt "b"))
        ⟨"b", [1, 0], "rb", 0, none⟩ s4) := save_idb cfgN 0 rfl
  have hstore : setStore (CacheStorage.getKey (storageOf cfgN) (hashPrompt "b"))
      ⟨"b", [1, 0], "rb", 0, none⟩ s4 = [("n:k1", entOne), ("n:2q", entB)] := rfl
  refine ⟨by rw [hsave], ?_, by decide⟩
  rw [hsave]
  have hq := query_idb cfgN 0 (show embTwo "b" = .ok [1, 0] from rfl)
    (show ((([("n:k1", entOne), ("n:2q", entB)] : Store).map Prod.fst).Nodup) by simp)
  rw [show (((.ok () : Except JsError Unit),
      setStore (CacheStorage.getKey (storageOf cfgN) (hashPrompt "b"))
        ⟨"b", [1, 0], "rb", 0, none⟩ s4) :
      Except JsError Unit × Store).2 = [("n:k1", entOne), ("n:2q", entB)] from by rw [hstore]]
  rw [hq]
  have hE : entriesOf cfgN.storagePrefix
      (postSweep cfgN 0 [("n:k1", entOne), ("n:2q", entB)]) = [entOne, entB] := rfl
  have hscan : scanLoop [(1 : ℝ), 0] [entOne, entB] (none, 0) = .ok (some entOne, 1) := by
    rw [scanLoop_cons _ _ _ _ _ (show calculateSimilarity [(1 : ℝ), 0] entOne.embedding = .ok 1
      from calcSim_one0), if_pos (by norm_num)]
    rw [scanLoop_cons _ _ _ _ _ (show calculateSimilarity [(1 : ℝ), 0] entB.embedding = .ok 1
      from calcSim_one0), if_neg (by norm_num)]
    exact scanLoop_nil _ _
  show queryPure cfgN [(1 : ℝ), 0] (entriesOf cfgN.storagePrefix
    (postSweep cfgN 0 [("n:k1", entOne), ("n:2q", entB)])) = _
  rw [hE, queryPure_scan cfgN _ _ (by simp) hscan]
  simp only [decision]
  rw [if_pos (by show (1 : ℝ) ≥ cfgN.similarityThreshold
                 rw [show cfgN.similarityThreshold = 1 / 2 from rfl]
                 norm_num)]
  rfl

/-- C4 as amended: `save(p, r)` followed immediately by `query(p)` (same
deterministic provider, non-zero embedding, no expiration configured)
yields a Hit with response `r` and similarity exactly `1`, PROVIDED every
other entry visible in the post-save store has a defined similarity
strictly below `1` (no earlier tied entry and no dimension mismatch). -/
theorem claim4_round_trip (cfg : NanoCacheConfig) (emb : String → Except JsError (List ℝ))
    (now now2 : ℤ) (p r : String) (md : Option (List (String × String))) (s : Store)
    (qe : List ℝ)
    (hthr : cfg.similarityThreshold ≤ 1) (hage : cfg.maxAge = 0)
    (hemb : emb p = .ok qe) (hqz : sumsq qe ≠ 0) (hnd : (s.map Prod.fst).Nodup)
    (hprev : ∀ e ∈ entriesOf cfg.storagePrefix
        (setStore (CacheStorage.getKey (storageOf cfg) (hashPrompt p)) ⟨p, qe, r, now, md⟩ s),
      e ≠ ⟨p, qe, r, now, md⟩ → ∃ v, calculateSimilarity qe e.embedding = .ok v ∧ v < 1) :
    NanoCache.save cfg idbBackend emb now p r md s =
      (.ok (), setStore (CacheStorage.getKey (storageOf cfg) (hashPrompt p))
        ⟨p, qe, r, now, md⟩ s)
    ∧ NanoCache.query cfg idbBackend emb now2 p
        (setStore (CacheStorage.getKey (storageOf cfg) (hashPrompt p)) ⟨p, qe, r, now, md⟩ s) =
      (⟨true, some r, some 1, some ⟨p, qe, r, now, md⟩⟩,
       setStore (CacheStorage.getKey (storageOf cfg) (hashPrompt p)) ⟨p, qe, r, now, md⟩ s) := by
  have hself : calculateSimilarity qe (⟨p, qe, r, now, md⟩ : CacheEntry).embedding = .ok 1 :=
    calcSim_self hqz
  have hsv : simVal qe ⟨p, qe, r, now, md⟩ = 1 := by
    simp [simVal, hself, Except.toOption]
  have hnd' := setStore_keys_nodup (CacheStorage.getKey (storageOf cfg) (hashPrompt p))
    ⟨p, qe, r, now, md⟩ s hnd
  have hps : postSweep cfg now2
      (setStore (CacheStorage.getKey (storageOf cfg) (hashPrompt p)) ⟨p, qe, r, now, md⟩ s) =
      setStore (CacheStorage.getKey (storageOf cfg) (hashPrompt p)) ⟨p, qe, r, now, md⟩ s := by
    unfold postSweep
    rw [hage]
    norm_num
  have hENmem : (⟨p, qe, r, now, md⟩ : CacheEntry) ∈ entriesOf cfg.storagePrefix
      (setStore (CacheStorage.getKey (storageOf cfg) (hashPrompt p)) ⟨p, qe, r, now, md⟩ s) := by
    refine List.mem_map.mpr ⟨(CacheStorage.getKey (storageOf cfg) (hashPrompt p),
      ⟨p, qe, r, now, md⟩), ?_, rfl⟩
    refine List.mem_filter.mpr ⟨setStore_mem _ _ s, ?_⟩
    exact strStartsWith_getKey cfg.storagePrefix (hashPrompt p)
  have hok : ∀ e ∈ entriesOf cfg.storagePrefix
      (setStore (CacheStorage.getKey (storageOf cfg) (hashPrompt p)) ⟨p, qe, r, now, md⟩ s),
      ∃ v, calculateSimilarity qe e.embedding = .ok v := by
    intro e he
    by_cases heq : e = ⟨p, qe, r, now, md⟩
    · rw [heq]
      exact ⟨1, hself⟩
    · obtain ⟨v, hv, _⟩ := hprev e he heq
      exact ⟨v, hv⟩
  have hMe : (1 : ℝ) = foldBest (simVal qe) 0 (entriesOf cfg.storagePrefix
      (setStore (CacheStorage.getKey (storageOf cfg) (hashPrompt p)) ⟨p, qe, r, now, md⟩ s)) := by
    refine le_antisymm ?_ ?_
    · rw [← hsv]
      exact foldBest_ge (simVal qe) _ 0 _ hENmem
    · refine foldBest_le (simVal qe) _ 0 1 (by norm_num) ?_
      intro e he
      obtain ⟨v, hv⟩ := hok e he
      have : simVal qe e = v := by simp [simVal, hv, Except.toOption]
      rw [this]
      exact (calcSim_ok_bounds hv).2
  obtain ⟨m, hmmem, hmsv, hqp⟩ := queryPure_hit_max cfg qe _ 1
    (fun hE => by rw [hE] at hENmem; cases hENmem) hok hMe (by norm_num) hthr
  have hmEN : m = ⟨p, qe, r, now, md⟩ := by
    by_contra hne
    obtain ⟨v, hv, hvlt⟩ := hprev m hmmem hne
    have : simVal qe m = v := by simp [simVal, hv, Except.toOption]
    rw [this] at hmsv
    rw [hmsv] at hvlt
    exact absurd hvlt (lt_irrefl 1)
  refine ⟨save_idb cfg now hemb, ?_⟩
  rw [query_idb cfg now2 hemb hnd', hps]
  rw [hmEN] at hqp
  rw [hqp]

/-- Witness for the amended C4: round trip from an empty store — save then
query, Hit with the saved response and similarity `1`. -/
theorem claim4_witness :
    NanoCache.save cfgN idbBackend embTwo 0 "b" "rb" none [] =
      (.ok (), setStore (CacheStorage.getKey (storageOf cfgN) (hashPrompt "b"))
        ⟨"b", [(1 : ℝ), 0], "rb", 0, none⟩ [])
    ∧ NanoCache.query cfgN idbBackend embTwo 0 "b"
        (setStore (CacheStorage.getKey (storageOf cfgN) (hashPrompt "b"))
          ⟨"b", [(1 : ℝ), 0], "rb", 0, none⟩ []) =
      (⟨true, some "rb", some 1, some ⟨"b", [(1 : ℝ), 0], "rb", 0, none⟩⟩,
       setStore (CacheStorage.getKey (storageOf cfgN) (hashPrompt "b"))
         ⟨"b", [(1 : ℝ), 0], "rb", 0, none⟩ []) := by
  refine claim4_round_trip cfgN embTwo 0 0 "b" "rb" none [] [(1 : ℝ), 0]
    (by rw [show cfgN.similarityThreshold = 1 / 2 from rfl]; norm_num) rfl rfl
    (by rw [sumsq_one0]; norm_num) (by simp) ?_
  intro e he hne
  exfalso
  apply hne
  have hent : entriesOf cfgN.storagePrefix
      (setStore (CacheStorage.getKey (storageOf cfgN) (hashPrompt "b"))
        ⟨"b", [(1 : ℝ), 0], "rb", 0, none⟩ []) =
      [⟨"b", [(1 : ℝ), 0], "rb", 0, none⟩] := rfl
  rw [hent] at he
  exact List.mem_singleton.mp he

end NanoLLMCache
